import Mathlib

/-!
Verification of the `kwo` library (`src/kwo/__init__.py`), a Python 2/3
compatible interface to keyword-only arguments.

The development shallowly embeds the library: Python values are an inductive
type `Val`, Python dicts are association lists with distinct keys, the
decoration-time parameter walk of `with_kwonly` is a fold over the
right-aligned (name, default) pairing, the per-call keyword extraction
`extract_kwonlies` is a recursion over the recorded
(keyword-only name, default) pairs, and the calling convention of the
synthesized wrapper (and of the original function it forwards to) is an
explicit Python-style argument-binding function.
-/

namespace Kwo

/-- Python values as far as the library inspects them: the two sentinel
function objects `no_default` and `vararg` (compared by identity in the
source, which the unique constructors model), `kwonly` declaration objects
wrapping a default, and ordinary data (ints, strings, tuples, dicts) that
the library never looks inside. -/
inductive Val where
  | noDefault
  | varargS
  | kw (dflt : Val)
  | int (n : Int)
  | str (s : String)
  | tuple (xs : List Val)
  | dict (entries : List (String × Val))

/-- `value is no_default` from the source: an identity test against the
`no_default` sentinel. -/
def isNoDefault : Val → Bool
  | Val.noDefault => true
  | _ => false

/-- `isinstance(value, kwonly)` from the source. -/
def isKwDecl : Val → Bool
  | Val.kw _ => true
  | _ => false

/-- `value is vararg` from the source: an identity test against the `vararg`
sentinel. -/
def isVarargS : Val → Bool
  | Val.varargS => true
  | _ => false

/-- A single-quote character, used to build Python `repr` of identifier
strings without writing a quote character literally. -/
def sq : Char := Char.ofNat 39

/-- Python `repr` of an identifier string: the name between single quotes,
as produced by the `%r` format used in the source error messages. -/
def pyrepr (s : String) : String := String.singleton sq ++ s ++ String.singleton sq

/-- Dictionary lookup: the value stored under a key in an association list
(the first binding wins, and dicts built by the library have distinct keys). -/
def lookupVal (kws : List (String × Val)) (n : String) : Option Val :=
  (kws.find? (fun kv => kv.1 == n)).map Prod.snd

/-- `dict.pop(n, ...)`'s removal effect: remove the binding of `n` (the
first such binding; a dict has at most one). -/
def popEntry (kws : List (String × Val)) (n : String) : List (String × Val) :=
  kws.eraseP (fun kv => kv.1 == n)

/-- Whether an association list binds some key twice (never true of a list
modelling a Python dict). -/
def hasDupKeys : List (String × Val) → Bool
  | [] => false
  | kv :: rest => rest.any (fun kv2 => kv2.1 == kv.1) || hasDupKeys rest

/-- Exceptions the library raises. -/
inductive PyErr where
  | assertionErr (msg : String)
  | typeErr (msg : String)
  | attributeErr (msg : String)
  | synMsgErr (msg : String)

/-- Body of the sentinel function `no_default`: it unconditionally raises an
`AssertionError` with a fixed message. -/
def no_default_body : Except PyErr Val :=
  Except.error (PyErr.assertionErr
    ("no_default is just a sentinel, why are you calling this?"))

/-- Body of the sentinel function `vararg`: it unconditionally raises an
`AssertionError` with a fixed message. -/
def vararg_body : Except PyErr Val :=
  Except.error (PyErr.assertionErr
    ("vararg is just a sentinel, why are you calling this?"))

/-- A constructed `kwonly` declaration object: one field, `default`. -/
structure KwonlyDecl where
  default : Val

/-- `kwonly.__init__`: stores the given default (via `object.__setattr__`,
which bypasses the class's own `__setattr__`). The Python default for the
`default` parameter is the `no_default` sentinel. -/
def kwonly_init (default : Val := Val.noDefault) : KwonlyDecl :=
  { default := default }

/-- `kwonly.__setattr__`: every attribute assignment after construction
raises `AttributeError('kwonly objects are immutable')`, whatever the
attribute and value are. -/
def kwonly_setattr (_self : KwonlyDecl) (_attr : String) (_value : Val) :
    Except PyErr KwonlyDecl :=
  Except.error (PyErr.attributeErr "kwonly objects are immutable")

/-- The code-object metadata `_format_syntax_error` reads from the decorated
function. -/
structure CodeMeta where
  co_filename : String
  co_firstlineno : Nat
  co_name : String

/-- A `SyntaxError` as raised by `_format_syntax_error`: message plus the
`(filename, lineno, offset, text)` tuple. -/
structure SynErr where
  msg : String
  filename : String
  lineno : Nat
  offset : Nat
  text : String

/-- `_format_syntax_error(f, msg)`: reads the declaring file (modelled as
`Option` over its list of lines: `none` when opening raises `IOError`, in
which case the line text is `???`) and builds a `SyntaxError` carrying the
file name, first line number, line length and line text of the decorated
function. A line number outside the file (an uncaught `IndexError` in the
source) yields `none`. -/
def format_syntax_err (code : CodeMeta) (file : Option (List String))
    (msg : String) : Option SynErr :=
  match file with
  | none => some ⟨msg, code.co_filename, code.co_firstlineno, 3, "???"⟩
  | some lines =>
    match lines.get? (code.co_firstlineno - 1) with
    | some line =>
        some ⟨msg, code.co_filename, code.co_firstlineno, line.length, line⟩
    | none => none

/-- The result of `inspect.getargspec`: declared parameter names, the
`*args` parameter name (if any), the `**kwargs` parameter name (if any),
and the trailing default values. -/
structure ArgSpec where
  args : List String
  varargs : Option String
  keywords : Option String
  defaults : List Val

/-- One step of the right-aligned pairing, on the reversed lists:
`zip_longest(reversed(args), reversed(defaults), fillvalue=no_default)`
restricted to the length of the name list (Python guarantees there are at
most as many defaults as parameters). -/
def pairRev : List String → List Val → List (String × Val)
  | [], _ => []
  | n :: ns, [] => (n, Val.noDefault) :: pairRev ns []
  | n :: ns, d :: ds => (n, d) :: pairRev ns ds

/-- The source's `defaults` pairing: walk parameters in declaration order,
each paired with its default where the defaults right-align against the
parameter list, and with the `no_default` sentinel otherwise. -/
def defaultPairs (args : List String) (ds : List Val) : List (String × Val) :=
  (pairRev args.reverse ds.reverse).reverse

/-- Python truthiness of an optional string (`None` and the empty string
are falsy), as used by `elif found_kwonly:` and `if found_vararg:`. -/
def pyTruthy : Option String → Bool
  | none => false
  | some s => !(s == "")

/-- The mutable state of the classification/validation loop in
`with_kwonly`. -/
structure WalkSt where
  kwonly_defaults : List (String × Val)
  found_kwonly : Option String
  found_vararg : Option String
  real_vararg : Bool

/-- One iteration of the `for name, value in defaults:` loop of
`with_kwonly`: classify the parameter and enforce the ordering rules,
raising by returning `Except.error` with the `SyntaxError` message. -/
def walkStep (st : WalkSt) (p : String × Val) : Except String WalkSt :=
  match p.2 with
  | Val.kw d =>
      Except.ok { st with
        found_kwonly := some p.1,
        kwonly_defaults := st.kwonly_defaults ++ [(p.1, d)] }
  | Val.varargS =>
      if st.found_vararg.isSome then
        Except.error ("duplicate " ++ pyrepr "vararg" ++ " arguments")
      else
        Except.ok { st with found_vararg := some p.1, real_vararg := false }
  | _ =>
      match st.found_vararg, st.real_vararg with
      | some fv, false =>
          Except.error ("non keyword only argument " ++ pyrepr p.1 ++
            " follows vararg " ++ pyrepr fv)
      | _, _ =>
          if pyTruthy st.found_kwonly then
            Except.error ("non keyword only argument " ++ pyrepr p.1 ++
              " follows keyword argument " ++ pyrepr (st.found_kwonly.getD ""))
          else
            Except.ok st

/-- The initial loop state: nothing found yet, `found_vararg` starts as the
native `*args` name and `real_vararg` records whether one exists. -/
def initSt (spec : ArgSpec) : WalkSt :=
  ⟨[], none, spec.varargs, spec.varargs.isSome⟩

/-- The whole classification/validation loop. -/
def walk (pairs : List (String × Val)) (st : WalkSt) : Except String WalkSt :=
  pairs.foldlM walkStep st

/-- Item-level model of the string concatenation `sa ++ ', ' ++ sb` where
`sa` and `sb` are comma-joined item lists: when either side is the empty
join its contribution is an empty item between separators (this is exactly
how the source's `', '.join(...)` pieces compose, given that genuine items
are nonempty and contain no comma). -/
def catArgs (a b : List String) : List String :=
  (if a.isEmpty then [""] else a) ++ (if b.isEmpty then [""] else b)

/-- The parameter-list items of the synthesized `def function(...)`:
the retained plain parameters, then `*<vararg name>` if one was found,
then `**<keyword-bag name>`, composed exactly as `wrapper_argspec_str`
is concatenated in the source. -/
def wrapperItemsOf (plains : List String) (fva : Option String)
    (kwargname : String) : List String :=
  let base := plains
  let base := if pyTruthy fva then catArgs base ["*" ++ fva.getD ""] else base
  catArgs base ["**" ++ kwargname]

/-- The argument items of the synthesized call `f(...)`: the plain
parameters, then the vararg name passed positionally (unstarred) if one was
found, then one `name=name` item per keyword-only parameter, then
`**<keyword-bag name>`, composed exactly as `call_sig_str` is concatenated
in the source. -/
def callItemsOf (plains : List String) (fva : Option String)
    (kwonly_names : List String) (kwargname : String) : List String :=
  let base := plains
  let base := if pyTruthy fva then catArgs base [fva.getD ""] else base
  let base := catArgs base (kwonly_names.map (fun n => n ++ "=" ++ n))
  catArgs base ["**" ++ kwargname]

/-- The comma-joined rendering of an item list (for reading a generated
argument list back as source text). -/
def argStringOf (items : List String) : String :=
  String.intercalate ", " items

/-- What decorating a function produces. -/
inductive DecorResult where
  /-- Decoration raised a `SyntaxError` with this message (either one of
  the ordering/duplication errors, or `invalid syntax` from compiling a
  malformed synthesized source). -/
  | synErr (msg : String)
  /-- The fast path: the original function object itself is returned. -/
  | identity
  /-- A new wrapper was synthesized; its closure holds the retained plain
  parameter names, the capture parameter name, the recorded
  (keyword-only name, default) pairs, and the keyword-bag parameter name. -/
  | wrapped (plains : List String) (found_vararg : Option String)
      (kwonly_defaults : List (String × Val)) (kwargname : String)

/-- `with_kwonly(f)` up to the synthesis step, for a function with the given
argspec. `fresh` stands for the uuid-mangled private name
`private_namespace('kwargs')`, used only when the function declares no
`**kwargs` of its own. Compiling the synthesized source fails with
`SyntaxError: invalid syntax` exactly when one of the generated argument
lists contains an empty item (a stray comma), given that parameter names
are valid identifiers. -/
def with_kwonly (spec : ArgSpec) (fresh : String) : DecorResult :=
  match walk (defaultPairs spec.args spec.defaults) (initSt spec) with
  | Except.error m => DecorResult.synErr m
  | Except.ok st =>
    if st.found_kwonly = none ∧ st.found_vararg = spec.varargs then
      DecorResult.identity
    else
      let kwonly_names := st.kwonly_defaults.map Prod.fst
      let plains := spec.args.filter
        (fun a => !kwonly_names.contains a && !(st.found_vararg == some a))
      let kwargname := spec.keywords.getD fresh
      let wItems := wrapperItemsOf plains st.found_vararg kwargname
      let cItems := callItemsOf plains st.found_vararg kwonly_names kwargname
      if wItems.contains "" || cItems.contains "" then
        DecorResult.synErr "invalid syntax"
      else
        DecorResult.wrapped plains st.found_vararg st.kwonly_defaults kwargname

/-- Routing of a decoration-time error message through
`_format_syntax_error`: `none` when decoration did not raise. -/
def with_kwonly_err (code : CodeMeta) (file : Option (List String))
    (spec : ArgSpec) (fresh : String) : Option (Option SynErr) :=
  match with_kwonly spec fresh with
  | DecorResult.synErr m => some (format_syntax_err code file m)
  | _ => none

/-- The `for name, default in kwonly_defaults:` loop of `extract_kwonlies`:
pop each keyword-only name out of the keyword bag (its recorded default
when absent), collecting the extracted values, the missing names, and the
keyword bag left over. -/
def extractLoop : List (String × Val) → List (String × Val) →
    (List Val × List String × List (String × Val))
  | [], kwargs => ([], [], kwargs)
  | (name, dflt) :: rest, kwargs =>
    let value := (lookupVal kwargs name).getD dflt
    let r := extractLoop rest (popEntry kwargs name)
    if isNoDefault value then
      (r.1, name :: r.2.1, r.2.2)
    else
      (value :: r.1, r.2.1, r.2.2)

/-- The missing-name list formatting of `extract_kwonlies`: one name is its
`repr`; two are joined with ` and `; three or more are the comma-joined
`repr`s of all but the last, then `, and `, then the last. -/
def formatArgsList : List String → String
  | [a] => pyrepr a
  | [a, b] => pyrepr a ++ " and " ++ pyrepr b
  | l => String.intercalate ", " (l.dropLast.map pyrepr) ++ ", and " ++
      pyrepr (l.getLastD "")

/-- The full message of the missing-required-keyword-only `TypeError`. -/
def missingMsg (fname : String) (missing : List String) : String :=
  fname ++ "() missing " ++ toString missing.length ++
    " required keyword-only argument" ++
    (if missing.length == 1 then "" else "s") ++ ": " ++ formatArgsList missing

/-- `extract_kwonlies(kwargs)`: on success, the extracted keyword-only
values in declaration order together with the keyword bag left over; when
any keyword-only parameter lacks both a supplied value and a recorded
default, the `TypeError` message naming every missing one. -/
def extract_kwonlies (fname : String) (kwonly_defaults : List (String × Val))
    (kwargs : List (String × Val)) :
    Except String (List Val × List (String × Val)) :=
  let r := extractLoop kwonly_defaults kwargs
  if r.2.1.isEmpty then Except.ok (r.1, r.2.2)
  else Except.error (missingMsg fname r.2.1)

/-- Resolve one named parameter of a Python call: positionally supplied
parameters take the positional value (and conflict with a keyword for the
same name), later parameters take their keyword value, then their declared
default, and are otherwise missing. -/
def resolveParam (pos : List Val) (kws dflts : List (String × Val))
    (i : Nat) (name : String) : Except String Val :=
  if i < pos.length then
    if (lookupVal kws name).isSome then
      Except.error ("got multiple values for argument " ++ pyrepr name)
    else
      Except.ok (pos.getD i Val.noDefault)
  else
    match lookupVal kws name with
    | some v => Except.ok v
    | none =>
      match lookupVal dflts name with
      | some d => Except.ok d
      | none => Except.error ("missing a required argument: " ++ pyrepr name)

/-- Resolve a list of named parameters, the first sitting at positional
index `i`. -/
def resolveParams (pos : List Val) (kws dflts : List (String × Val)) :
    Nat → List String → Except String (List (String × Val))
  | _, [] => Except.ok []
  | i, name :: rest =>
    match resolveParam pos kws dflts i name with
    | Except.error e => Except.error e
    | Except.ok v =>
      (resolveParams pos kws dflts (i + 1) rest).map
        (fun tail => (name, v) :: tail)

/-- Python-style binding of a call to a signature with named parameters
`params` (defaults in `dflts`), an optional `*` parameter and an optional
`**` parameter: the bindings of the named parameters in declaration order,
the extra positional values, and the keyword bag of unmatched keywords. -/
def bindCallSplit (params : List String) (dflts : List (String × Val))
    (varargName kwargName : Option String)
    (pos : List Val) (kws : List (String × Val)) :
    Except String (List (String × Val) × List Val × List (String × Val)) :=
  if params.length < pos.length ∧ varargName = none then
    Except.error "too many positional arguments"
  else if hasDupKeys kws then
    Except.error "got multiple values for a keyword argument"
  else if kwargName = none ∧ kws.any (fun kv => !params.contains kv.1) then
    Except.error "got an unexpected keyword argument"
  else
    match resolveParams pos kws dflts 0 params with
    | Except.error e => Except.error e
    | Except.ok named =>
      Except.ok (named, pos.drop params.length,
        kws.filter (fun kv => !params.contains kv.1))

/-- The full environment a call binds: the named parameters, then the `*`
parameter bound to the tuple of extras, then the `**` parameter bound to
the dict of unmatched keywords. -/
def bindCall (params : List String) (dflts : List (String × Val))
    (varargName kwargName : Option String)
    (pos : List Val) (kws : List (String × Val)) :
    Except String (List (String × Val)) :=
  (bindCallSplit params dflts varargName kwargName pos kws).map
    (fun r =>
      r.1 ++
      (match varargName with
       | some n => [(n, Val.tuple r.2.1)]
       | none => []) ++
      (match kwargName with
       | some n => [(n, Val.dict r.2.2)]
       | none => []))

/-- Decorate a function (named `fname`, with argspec `spec`) and call the
result with positional arguments `pos` and keyword arguments `kw`:
the environment in which the original function's body runs. On the fast
path the original function is called directly. On the wrapped path the
wrapper binds its own synthesized signature, runs `extract_kwonlies` on its
keyword bag, and forwards to the original function as the synthesized call
does: the plain values positionally, then (if a capture parameter was
found) the captured tuple positionally, then each keyword-only value by
name, then the leftover bag by `**` expansion. -/
def wrapperInvoke (fname : String) (spec : ArgSpec) (fresh : String)
    (pos : List Val) (kw : List (String × Val)) :
    Except PyErr (List (String × Val)) :=
  match with_kwonly spec fresh with
  | DecorResult.synErr m => Except.error (PyErr.synMsgErr m)
  | DecorResult.identity =>
    (bindCall spec.args (defaultPairs spec.args spec.defaults) spec.varargs
        spec.keywords pos kw).mapError PyErr.typeErr
  | DecorResult.wrapped plains fva kwds kwargname =>
    match bindCallSplit plains [] fva (some kwargname) pos kw with
    | Except.error e => Except.error (PyErr.typeErr e)
    | Except.ok (named, extras, bag) =>
      match extract_kwonlies fname kwds bag with
      | Except.error e => Except.error (PyErr.typeErr e)
      | Except.ok (kwvals, bag2) =>
        let fpos := named.map Prod.snd ++
          (if pyTruthy fva then [Val.tuple extras] else [])
        let fkws := (kwds.map Prod.fst).zip kwvals ++ bag2
        (bindCall spec.args (defaultPairs spec.args spec.defaults)
            spec.varargs spec.keywords fpos fkws).mapError PyErr.typeErr

/-- A compiled code object as far as the metadata rewriting touches it:
the identity fields and an opaque stand-in for all remaining `co_*` fields
(byte code, constants, and so on). -/
structure CodeObj where
  co_filename : String
  co_name : String
  co_firstlineno : Nat
  rest : Nat

/-- A function object: its `__name__` and its code object. -/
structure PyFunc where
  name : String
  code : CodeObj

/-- The tail of `with_kwonly`: collect every `co_*` field of the wrapper's
code object, override `co_name` and `co_firstlineno` with the original's,
and rebuild the code object from the collected fields. -/
def rewriteCode (wrapperCode fCode : CodeObj) : CodeObj :=
  { wrapperCode with
    co_name := fCode.co_name,
    co_firstlineno := fCode.co_firstlineno }

/-- The synthesized callable: `functools.wraps(f)` copies `__name__` from
the original, and the rebuilt code object carries the original's `co_name`
and `co_firstlineno` over the wrapper's compiled body. -/
def synthWrap (f : PyFunc) (wrapperCode : CodeObj) : PyFunc :=
  { name := f.name, code := rewriteCode wrapperCode f.code }

/-- The argspec of a function declared, in order, with plain parameters
`plains`, an optional parameter defaulted to the `vararg` sentinel, the
keyword-only parameters `kwds` (each defaulted to a `kwonly` declaration
object), and a `**` parameter named `bag`. -/
def mkSpec (plains : List String) (marker : Option String)
    (kwds : List (String × Val)) (bag : String) : ArgSpec :=
  { args := plains ++ marker.toList ++ kwds.map Prod.fst,
    varargs := none,
    keywords := some bag,
    defaults := marker.toList.map (fun _ => Val.varargS) ++
      kwds.map (fun nd => Val.kw nd.2) }

/-- Modelled from the claim's description of calling the original function
directly: every plain parameter bound to its positional value, the capture
parameter (if any) bound to the tuple of extra positionals, every
keyword-only parameter bound to its supplied value or otherwise its
recorded default, and the keyword bag holding the keyword arguments whose
names are not keyword-only names. -/
def directResolvedEnv (plains : List String) (marker : Option String)
    (kwds : List (String × Val)) (bag : String)
    (pvals extras : List Val) (kw : List (String × Val)) :
    List (String × Val) :=
  plains.zip pvals ++
  marker.toList.map (fun m => (m, Val.tuple extras)) ++
  kwds.map (fun nd => (nd.1, (lookupVal kw nd.1).getD nd.2)) ++
  [(bag, Val.dict (kw.filter (fun kv => !(kwds.map Prod.fst).contains kv.1)))]

/-- The missing-name list exactly as claim C2 words it: `'<name>'` for one
name, `'<a>' and '<b>'` for two, and the Oxford-comma list
`'<a>', '<b>', and '<c>'` for three or more. -/
def specNameList : List String → String
  | [a] => pyrepr a
  | [a, b] => pyrepr a ++ " and " ++ pyrepr b
  | l => String.intercalate ", " (l.dropLast.map pyrepr) ++ ", and " ++
      pyrepr (l.getLastD "")

/-- The full missing-required-keyword-only message exactly as claim C2
words it. -/
def specMissingMsg (fname : String) (missing : List String) : String :=
  fname ++ "() missing " ++ toString missing.length ++
    " required keyword-only argument" ++
    (if missing.length = 1 then "" else "s") ++ ": " ++ specNameList missing

/-- A parameter value that is neither a `kwonly` declaration nor the
`vararg` sentinel: the walk classifies it as plain. -/
def isPlainVal (v : Val) : Bool := !isKwDecl v && !isVarargS v

/-- The value `found_kwonly` holds after the keyword-only parameters
`kwds` have been walked, starting from `o`. -/
def lastKw (kwds : List (String × Val)) (o : Option String) : Option String :=
  kwds.foldl (fun _ nd => some nd.1) o

/-- The value a keyword-only parameter resolves to: its supplied keyword
value if present, its recorded default otherwise. -/
def resolvedVal (kwargs : List (String × Val)) (nd : String × Val) : Val :=
  (lookupVal kwargs nd.1).getD nd.2

/-! ### Association-list (dict) lemmas -/

theorem lookupVal_eq_none {kws : List (String × Val)} {n : String} :
    lookupVal kws n = none ↔ n ∉ kws.map Prod.fst := by
  simp only [lookupVal, Option.map_eq_none', List.find?_eq_none, List.mem_map]
  constructor
  · rintro h ⟨kv, hkv, rfl⟩
    exact h kv hkv (by simp)
  · rintro h kv hkv hbeq
    exact h ⟨kv, hkv, by simpa using hbeq⟩

theorem lookupVal_mem {kws : List (String × Val)} {n : String} {v : Val}
    (h : lookupVal kws n = some v) : (n, v) ∈ kws := by
  simp only [lookupVal, Option.map_eq_some'] at h
  obtain ⟨kv, hfind, rfl⟩ := h
  have hmem := List.mem_of_find?_eq_some hfind
  have hp := List.find?_some hfind
  have : kv.1 = n := by simpa using hp
  have : kv = (n, kv.2) := by
    cases kv
    simpa using this
  rw [this] at hmem
  exact hmem

theorem lookupVal_popEntry_ne (kws : List (String × Val)) (n x : String)
    (hx : x ≠ n) : lookupVal (popEntry kws n) x = lookupVal kws x := by
  induction kws with
  | nil => rfl
  | cons kv rest ih =>
    by_cases h : kv.1 = n
    · have : popEntry (kv :: rest) n = rest := by
        simp [popEntry, List.eraseP_cons, h]
      rw [this]
      have hne : (kv.1 == x) = false := by
        simp [h]
        exact fun hc => hx hc.symm
      simp [lookupVal, List.find?_cons, hne]
    · have : popEntry (kv :: rest) n = kv :: popEntry rest n := by
        simp [popEntry, List.eraseP_cons, h]
      rw [this]
      by_cases hkx : kv.1 = x
      · simp [lookupVal, List.find?_cons, hkx]
      · have hne : (kv.1 == x) = false := by simp [hkx]
        simp only [lookupVal, List.find?_cons, hne]
        exact ih

theorem popEntry_eq_filter {kws : List (String × Val)}
    (h : (kws.map Prod.fst).Nodup) (n : String) :
    popEntry kws n = kws.filter (fun kv => !(kv.1 == n)) := by
  induction kws with
  | nil => rfl
  | cons kv rest ih =>
    simp only [List.map_cons, List.nodup_cons] at h
    by_cases hk : kv.1 = n
    · have h1 : popEntry (kv :: rest) n = rest := by
        simp [popEntry, List.eraseP_cons, hk]
      have h2 : rest.filter (fun kv2 => !(kv2.1 == n)) = rest := by
        apply List.filter_eq_self.mpr
        intro kv2 hkv2
        have : kv2.1 ≠ n := by
          intro hc
          exact h.1 (by
            refine List.mem_map.mpr ⟨kv2, hkv2, ?_⟩
            rw [hc, hk])
        simp [this]
      rw [h1, List.filter_cons]
      simp [hk, h2]
    · have h1 : popEntry (kv :: rest) n = kv :: popEntry rest n := by
        simp [popEntry, List.eraseP_cons, hk]
      rw [h1, List.filter_cons]
      simp [hk, ih h.2]

theorem hasDupKeys_eq_false {kws : List (String × Val)} :
    hasDupKeys kws = false ↔ (kws.map Prod.fst).Nodup := by
  induction kws with
  | nil => simp [hasDupKeys]
  | cons kv rest ih =>
    simp only [hasDupKeys, List.map_cons, List.nodup_cons, Bool.or_eq_false_iff,
      List.any_eq_false, ih, List.mem_map]
    constructor
    · rintro ⟨h1, h2⟩
      refine ⟨?_, h2⟩
      rintro ⟨kv2, hkv2, hfst⟩
      exact absurd (by simpa using hfst) (by simpa using h1 kv2 hkv2)
    · rintro ⟨h1, h2⟩
      refine ⟨?_, h2⟩
      intro kv2 hkv2
      simp only [beq_iff_eq]
      intro hc
      exact h1 ⟨kv2, hkv2, hc⟩

theorem lookupVal_append (a b : List (String × Val)) (n : String) :
    lookupVal (a ++ b) n =
      (lookupVal a n).orElse (fun _ => lookupVal b n) := by
  simp only [lookupVal, List.find?_append]
  cases List.find? (fun kv => kv.1 == n) a <;> simp

theorem lookupVal_map_keyed {l : List (String × Val)}
    (g : String × Val → Val) (h : (l.map Prod.fst).Nodup)
    {nd : String × Val} (hm : nd ∈ l) :
    lookupVal (l.map (fun x => (x.1, g x))) nd.1 = some (g nd) := by
  induction l with
  | nil => cases hm
  | cons x rest ih =>
    simp only [List.map_cons, List.nodup_cons] at h
    rcases List.mem_cons.mp hm with rfl | hrest
    · simp [lookupVal, List.find?_cons]
    · have hne : (x.1 == nd.1) = false := by
        simp only [beq_eq_false_iff_ne, ne_eq]
        intro hc
        exact h.1 (by
          rw [hc]
          exact List.mem_map.mpr ⟨nd, hrest, rfl⟩)
      simp only [List.map_cons, lookupVal, List.find?_cons, hne]
      exact ih h.2 hrest

theorem lookupVal_self {l : List (String × Val)}
    (h : (l.map Prod.fst).Nodup) {nd : String × Val} (hm : nd ∈ l) :
    lookupVal l nd.1 = some nd.2 := by
  have := lookupVal_map_keyed Prod.snd h hm
  simpa using this

/-! ### Right-aligned default pairing lemmas -/

theorem pairRev_nil (xs : List String) :
    pairRev xs [] = xs.map (fun n => (n, Val.noDefault)) := by
  induction xs with
  | nil => rfl
  | cons x xs ih => simp [pairRev, ih]

theorem pairRev_append (xs ys : List String) (ds es : List Val)
    (h : xs.length = ds.length) :
    pairRev (xs ++ ys) (ds ++ es) = pairRev xs ds ++ pairRev ys es := by
  induction xs generalizing ds with
  | nil =>
    cases ds with
    | nil => simp [pairRev]
    | cons d ds => simp at h
  | cons x xs ih =>
    cases ds with
    | nil => simp at h
    | cons d ds =>
      simp only [List.length_cons, Nat.succ.injEq] at h
      simp [pairRev, ih ds h]

theorem defaultPairs_append (as bs : List String) (ds : List Val)
    (h : bs.length = ds.length) :
    defaultPairs (as ++ bs) ds =
      as.map (fun n => (n, Val.noDefault)) ++ defaultPairs bs ds := by
  unfold defaultPairs
  have hds : ds.reverse = ds.reverse ++ [] := by simp
  rw [List.reverse_append, hds,
    pairRev_append bs.reverse as.reverse ds.reverse [] (by simp [h]),
    List.reverse_append, pairRev_nil]
  simp [List.map_reverse]

theorem defaultPairs_zip (bs : List String) (ds : List Val)
    (h : bs.length = ds.length) : defaultPairs bs ds = bs.zip ds := by
  induction bs generalizing ds with
  | nil =>
    cases ds with
    | nil => rfl
    | cons d ds => simp at h
  | cons b bs ih =>
    cases ds with
    | nil => simp at h
    | cons d ds =>
      simp only [List.length_cons, Nat.succ.injEq] at h
      unfold defaultPairs
      rw [List.reverse_cons, List.reverse_cons,
        pairRev_append bs.reverse [b] ds.reverse [d] (by simp [h]),
        List.reverse_append]
      have : pairRev [b] [d] = [(b, d)] := rfl
      rw [this]
      simp only [List.reverse_cons, List.reverse_nil, List.nil_append,
        List.zip_cons_cons]
      rw [← defaultPairs, ih ds h, List.singleton_append]

/-! ### Classification/validation walk lemmas -/

theorem walkStep_plain {st : WalkSt} {p : String × Val}
    (hp : isPlainVal p.2 = true) (hv : st.found_vararg = none)
    (hk : st.found_kwonly = none) : walkStep st p = Except.ok st := by
  obtain ⟨n, v⟩ := p
  cases v <;>
    simp_all [walkStep, isPlainVal, isKwDecl, isVarargS, pyTruthy]

theorem walk_plainSeg (ps : List (String × Val)) (st : WalkSt)
    (hp : ∀ p ∈ ps, isPlainVal p.2 = true) (hv : st.found_vararg = none)
    (hk : st.found_kwonly = none) : walk ps st = Except.ok st := by
  induction ps with
  | nil => rfl
  | cons p ps ih =>
    have h1 : walkStep st p = Except.ok st :=
      walkStep_plain (hp p (List.mem_cons_self p ps)) hv hk
    have h2 : walk (p :: ps) st = walk ps st := by
      simp only [walk, List.foldlM_cons, h1]
      rfl
    rw [h2]
    exact ih (fun q hq => hp q (List.mem_cons_of_mem p hq))

theorem walkStep_marker {st : WalkSt} (m : String)
    (hv : st.found_vararg = none) :
    walkStep st (m, Val.varargS) =
      Except.ok { st with found_vararg := some m, real_vararg := false } := by
  simp [walkStep, hv]

theorem lastKw_isSome_aux (kwds : List (String × Val)) (s : String) :
    (lastKw kwds (some s)).isSome = true := by
  induction kwds generalizing s with
  | nil => rfl
  | cons nd rest ih => exact ih nd.1

theorem lastKw_isSome (kwds : List (String × Val)) (o : Option String)
    (h : kwds ≠ []) : (lastKw kwds o).isSome = true := by
  cases kwds with
  | nil => exact absurd rfl h
  | cons nd rest => exact lastKw_isSome_aux rest nd.1

theorem walk_kwSeg (kwds : List (String × Val)) (st : WalkSt) :
    walk (kwds.map (fun nd => (nd.1, Val.kw nd.2))) st =
      Except.ok { st with
        kwonly_defaults := st.kwonly_defaults ++ kwds,
        found_kwonly := lastKw kwds st.found_kwonly } := by
  induction kwds generalizing st with
  | nil =>
    simp only [List.map_nil, walk, List.foldlM_nil, lastKw, List.foldl_nil,
      List.append_nil]
    rfl
  | cons nd rest ih =>
    have h1 : walkStep st (nd.1, Val.kw nd.2) =
        Except.ok { st with
          found_kwonly := some nd.1,
          kwonly_defaults := st.kwonly_defaults ++ [(nd.1, nd.2)] } := rfl
    have h2 : walk ((nd :: rest).map (fun x => (x.1, Val.kw x.2))) st =
        walk (rest.map (fun x => (x.1, Val.kw x.2)))
          { st with
            found_kwonly := some nd.1,
            kwonly_defaults := st.kwonly_defaults ++ [(nd.1, nd.2)] } := by
      simp only [List.map_cons, walk, List.foldlM_cons, h1]
      rfl
    rw [h2, ih]
    simp [lastKw, List.append_assoc]

/-! ### Synthesized-source item lemmas -/

theorem catArgs_of_ne {a b : List String} (ha : a ≠ []) (hb : b ≠ []) :
    catArgs a b = a ++ b := by
  simp [catArgs, List.isEmpty_iff, ha, hb]

theorem contains_empty_eq_false {l : List String} (h : ∀ s ∈ l, s ≠ "") :
    l.contains "" = false := by
  rw [Bool.eq_false_iff]
  intro hc
  exact h "" (List.elem_iff.mp hc) rfl

theorem star_ne_empty (s : String) : ("*" ++ s) ≠ "" := by
  intro h
  have := congrArg String.length h
  simp [String.length_append] at this
  exact absurd this.1 (by decide)

theorem dstar_ne_empty (s : String) : ("**" ++ s) ≠ "" := by
  intro h
  have := congrArg String.length h
  simp [String.length_append] at this
  exact absurd this.1 (by decide)

theorem eqitem_ne_empty (s : String) : (s ++ "=" ++ s) ≠ "" := by
  intro h
  have := congrArg String.length h
  simp [String.length_append] at this
  exact absurd this.1.2 (by decide)

/-! ### Decoration of the claim-shaped function -/

theorem walk_append (a b : List (String × Val)) (st : WalkSt) :
    walk (a ++ b) st = (walk a st) >>= (fun st2 => walk b st2) := by
  simp [walk, List.foldlM_append]

theorem pairs_mkSpec (plains : List String) (marker : Option String)
    (kwds : List (String × Val)) (bag : String) :
    defaultPairs (mkSpec plains marker kwds bag).args
        (mkSpec plains marker kwds bag).defaults =
      plains.map (fun n => (n, Val.noDefault)) ++
      marker.toList.map (fun m => (m, Val.varargS)) ++
      kwds.map (fun nd => (nd.1, Val.kw nd.2)) := by
  cases marker with
  | none =>
    simp only [mkSpec, Option.toList, List.map_nil, List.append_nil,
      List.nil_append]
    rw [defaultPairs_append plains (kwds.map Prod.fst) _ (by simp),
      defaultPairs_zip _ _ (by simp), List.zip_map']
  | some m =>
    simp only [mkSpec, Option.toList, List.map_cons, List.map_nil,
      List.append_assoc, List.singleton_append, List.nil_append]
    rw [defaultPairs_append plains (m :: kwds.map Prod.fst) _ (by simp),
      defaultPairs_zip _ _ (by simp)]
    simp [List.zip_cons_cons, List.zip_map']

theorem walk_mkSpec (plains : List String) (marker : Option String)
    (kwds : List (String × Val)) (bag : String) :
    walk (defaultPairs (mkSpec plains marker kwds bag).args
        (mkSpec plains marker kwds bag).defaults)
        (initSt (mkSpec plains marker kwds bag)) =
      Except.ok ⟨kwds, lastKw kwds none, marker, false⟩ := by
  have hinit : initSt (mkSpec plains marker kwds bag) =
      ⟨[], none, none, false⟩ := rfl
  rw [pairs_mkSpec, hinit]
  have hplain : walk (plains.map (fun n => (n, Val.noDefault)))
      (⟨[], none, none, false⟩ : WalkSt) = Except.ok ⟨[], none, none, false⟩ := by
    apply walk_plainSeg
    · intro p hp
      obtain ⟨n, hn, rfl⟩ := List.mem_map.mp hp
      rfl
    · rfl
    · rfl
  cases marker with
  | none =>
    simp only [Option.toList, List.map_nil, List.append_nil]
    rw [walk_append, hplain]
    show walk _ _ = _
    rw [walk_kwSeg]
    simp [lastKw]
  | some m =>
    simp only [Option.toList, List.map_cons, List.map_nil]
    rw [walk_append, walk_append, hplain]
    have hm : walk [(m, Val.varargS)] (⟨[], none, none, false⟩ : WalkSt) =
        Except.ok ⟨[], none, some m, false⟩ := by
      show (walkStep ⟨[], none, none, false⟩ (m, Val.varargS)) >>= _ = _
      rw [walkStep_marker m rfl]
      rfl
    show (Except.ok (⟨[], none, none, false⟩ : WalkSt) >>=
      fun st2 => walk [(m, Val.varargS)] st2) >>= _ = _
    have hbind : (Except.ok (⟨[], none, none, false⟩ : WalkSt) >>=
        fun st2 => walk [(m, Val.varargS)] st2) =
        Except.ok (⟨[], none, some m, false⟩ : WalkSt) := by
      rw [show (Except.ok (⟨[], none, none, false⟩ : WalkSt) >>=
        fun st2 => walk [(m, Val.varargS)] st2) =
        walk [(m, Val.varargS)] ⟨[], none, none, false⟩ from rfl, hm]
    rw [hbind]
    show walk _ _ = _
    rw [walk_kwSeg]
    simp [lastKw]

theorem filter_mkSpec (plains : List String) (marker : Option String)
    (kwds : List (String × Val)) (bag : String)
    (hnodup : (mkSpec plains marker kwds bag).args.Nodup) :
    (mkSpec plains marker kwds bag).args.filter
        (fun a => !(kwds.map Prod.fst).contains a && !(marker == some a)) =
      plains := by
  have hnd : (plains ++ marker.toList ++ kwds.map Prod.fst).Nodup := hnodup
  have hargs : (mkSpec plains marker kwds bag).args =
      plains ++ marker.toList ++ kwds.map Prod.fst := rfl
  rw [hargs, List.filter_append, List.filter_append]
  have hnd1 := List.nodup_append.mp hnd
  have hnd2 := List.nodup_append.mp hnd1.1
  have h1 : plains.filter
      (fun a => !(kwds.map Prod.fst).contains a && !(marker == some a)) =
      plains := by
    apply List.filter_eq_self.mpr
    intro p hp
    have hc : (kwds.map Prod.fst).contains p = false := by
      rw [Bool.eq_false_iff]
      intro hcon
      exact hnd1.2.2 (List.mem_append_left _ hp) (List.elem_iff.mp hcon)
    have hmk : (marker == some p) = false := by
      cases marker with
      | none => rfl
      | some m =>
        have hmp : m ≠ p := by
          intro hmp
          exact hnd2.2.2 hp (by simp [Option.toList, hmp])
        simpa using hmp
    rw [hc, hmk]
    rfl
  have h2 : marker.toList.filter
      (fun a => !(kwds.map Prod.fst).contains a && !(marker == some a)) =
      [] := by
    cases marker with
    | none => rfl
    | some m => simp [Option.toList]
  have h3 : (kwds.map Prod.fst).filter
      (fun a => !(kwds.map Prod.fst).contains a && !(marker == some a)) =
      [] := by
    apply List.filter_eq_nil_iff.mpr
    intro k hk
    have hck : (kwds.map Prod.fst).contains k = true := List.elem_iff.mpr hk
    intro hcon
    rw [hck] at hcon
    simp at hcon
  rw [h1, h2, h3, List.append_nil, List.append_nil]

theorem with_kwonly_shape (plains : List String) (marker : Option String)
    (kwds : List (String × Val)) (bag fresh : String)
    (hkne : kwds ≠ [])
    (hpne : plains ≠ [])
    (hpnames : ∀ p ∈ plains, p ≠ "")
    (hmname : ∀ m, marker = some m → m ≠ "")
    (hnodup : (mkSpec plains marker kwds bag).args.Nodup) :
    with_kwonly (mkSpec plains marker kwds bag) fresh =
      DecorResult.wrapped plains marker kwds bag := by
  have hfk : lastKw kwds none ≠ none :=
    Option.ne_none_iff_isSome.mpr (lastKw_isSome kwds none hkne)
  have hvarargs : (mkSpec plains marker kwds bag).varargs = none := rfl
  have hkeywords : (mkSpec plains marker kwds bag).keywords = some bag := rfl
  have hwitems : wrapperItemsOf plains marker bag =
      plains ++
      marker.toList.map (fun m => "*" ++ m) ++
      ["**" ++ bag] := by
    cases marker with
    | none =>
      simp only [wrapperItemsOf, pyTruthy, Bool.false_eq_true, if_false,
        Option.toList, List.map_nil, List.append_nil]
      exact catArgs_of_ne hpne (by simp)
    | some m =>
      have hm : m ≠ "" := hmname m rfl
      simp only [wrapperItemsOf, pyTruthy, Option.toList, List.map_cons,
        List.map_nil, Option.getD_some]
      rw [if_pos (by simpa using hm)]
      rw [catArgs_of_ne hpne (by simp)]
      rw [catArgs_of_ne (by simp [hpne]) (by simp)]
  have hcitems : callItemsOf plains marker (kwds.map Prod.fst) bag =
      plains ++
      marker.toList ++
      (kwds.map Prod.fst).map (fun n => n ++ "=" ++ n) ++
      ["**" ++ bag] := by
    have hkitems : (kwds.map Prod.fst).map (fun n => n ++ "=" ++ n) ≠ [] := by
      simp [hkne]
    cases marker with
    | none =>
      simp only [callItemsOf, pyTruthy, Bool.false_eq_true, if_false,
        Option.toList, List.append_nil]
      rw [catArgs_of_ne hpne hkitems]
      rw [catArgs_of_ne (by simp [hpne]) (by simp)]
    | some m =>
      have hm : m ≠ "" := hmname m rfl
      simp only [callItemsOf, pyTruthy, Option.toList, Option.getD_some]
      rw [if_pos (by simpa using hm)]
      rw [catArgs_of_ne hpne (by simp)]
      rw [catArgs_of_ne (by simp [hpne]) hkitems]
      rw [catArgs_of_ne (by simp [hpne]) (by simp)]
  have hwempty : (wrapperItemsOf plains marker bag).contains "" = false := by
    rw [hwitems]
    apply contains_empty_eq_false
    intro s hs
    rcases List.mem_append.mp hs with hs | hs
    · rcases List.mem_append.mp hs with hs | hs
      · exact hpnames s hs
      · obtain ⟨m, _, rfl⟩ := List.mem_map.mp hs
        exact star_ne_empty m
    · simp only [List.mem_singleton] at hs
      rw [hs]
      exact dstar_ne_empty bag
  have hcempty :
      (callItemsOf plains marker (kwds.map Prod.fst) bag).contains "" =
        false := by
    rw [hcitems]
    apply contains_empty_eq_false
    intro s hs
    rcases List.mem_append.mp hs with hs | hs
    · rcases List.mem_append.mp hs with hs | hs
      · rcases List.mem_append.mp hs with hs | hs
        · exact hpnames s hs
        · exact hmname s (by simpa using hs)
      · obtain ⟨n, _, rfl⟩ := List.mem_map.mp hs
        exact eqitem_ne_empty n
    · simp only [List.mem_singleton] at hs
      rw [hs]
      exact dstar_ne_empty bag
  unfold with_kwonly
  rw [walk_mkSpec]
  simp only []
  rw [hvarargs]
  rw [if_neg (fun h => hfk h.1)]
  simp only [hkeywords, Option.getD_some]
  rw [filter_mkSpec plains marker kwds bag hnodup]
  rw [hwempty, hcempty]
  simp

/-! ### Keyword extraction lemmas -/

theorem popEntry_keys_nodup {kwargs : List (String × Val)}
    (h : (kwargs.map Prod.fst).Nodup) (n : String) :
    ((popEntry kwargs n).map Prod.fst).Nodup := by
  rw [popEntry_eq_filter h]
  exact List.Nodup.sublist (List.Sublist.map Prod.fst (List.filter_sublist _)) h

theorem extractLoop_spec (kwds : List (String × Val)) :
    ∀ (kwargs : List (String × Val)),
    (kwds.map Prod.fst).Nodup → (kwargs.map Prod.fst).Nodup →
    extractLoop kwds kwargs =
      ((kwds.filter (fun nd => !isNoDefault (resolvedVal kwargs nd))).map
        (resolvedVal kwargs),
       (kwds.filter (fun nd => isNoDefault (resolvedVal kwargs nd))).map
        Prod.fst,
       kwargs.filter (fun kv => !(kwds.map Prod.fst).contains kv.1)) := by
  induction kwds with
  | nil =>
    intro kwargs _ _
    simp only [extractLoop, List.filter_nil, List.map_nil]
    have : kwargs.filter (fun kv => !([] : List String).contains kv.1) =
        kwargs := List.filter_eq_self.mpr (fun kv _ => rfl)
    rw [this]
  | cons nd rest ih =>
    intro kwargs hnodup hbag
    obtain ⟨n, d⟩ := nd
    simp only [List.map_cons, List.nodup_cons] at hnodup
    have hpop : ((popEntry kwargs n).map Prod.fst).Nodup :=
      popEntry_keys_nodup hbag n
    have hih := ih (popEntry kwargs n) hnodup.2 hpop
    have hsame : ∀ x ∈ rest, resolvedVal (popEntry kwargs n) x =
        resolvedVal kwargs x := by
      intro x hx
      have hxn : x.1 ≠ n := by
        intro hc
        exact hnodup.1 (by
          rw [← hc]
          exact List.mem_map.mpr ⟨x, hx, rfl⟩)
      unfold resolvedVal
      rw [lookupVal_popEntry_ne kwargs n x.1 hxn]
    have hfilt1 : rest.filter
        (fun x => !isNoDefault (resolvedVal (popEntry kwargs n) x)) =
        rest.filter (fun x => !isNoDefault (resolvedVal kwargs x)) :=
      List.filter_congr (fun x hx => by rw [hsame x hx])
    have hfilt2 : rest.filter
        (fun x => isNoDefault (resolvedVal (popEntry kwargs n) x)) =
        rest.filter (fun x => isNoDefault (resolvedVal kwargs x)) :=
      List.filter_congr (fun x hx => by rw [hsame x hx])
    have hmap1 : (rest.filter
        (fun x => !isNoDefault (resolvedVal kwargs x))).map
          (resolvedVal (popEntry kwargs n)) =
        (rest.filter (fun x => !isNoDefault (resolvedVal kwargs x))).map
          (resolvedVal kwargs) := by
      apply List.map_congr_left
      intro x hx
      exact hsame x (List.mem_of_mem_filter hx)
    have hbagpart : (popEntry kwargs n).filter
        (fun kv => !(rest.map Prod.fst).contains kv.1) =
        kwargs.filter
          (fun kv => !((n :: rest.map Prod.fst) : List String).contains kv.1)
        := by
      rw [popEntry_eq_filter hbag, List.filter_filter]
      apply List.filter_congr
      intro kv _
      simp only [List.contains_cons, Bool.not_or]
      rw [Bool.and_comm]
    show extractLoop ((n, d) :: rest) kwargs = _
    unfold extractLoop
    rw [hih, hfilt1, hfilt2, hmap1, hbagpart]
    by_cases hnod : isNoDefault (resolvedVal kwargs (n, d)) = true
    · have hval : isNoDefault ((lookupVal kwargs n).getD d) = true := hnod
      simp only [hval, if_true, List.filter_cons, hnod]
      simp [resolvedVal, List.map_cons]
    · have hval : isNoDefault ((lookupVal kwargs n).getD d) = false := by
        rwa [Bool.eq_false_iff]
      simp only [hval, Bool.false_eq_true, if_false, List.filter_cons, hnod]
      simp only [Bool.not_false, if_true, List.map_cons]
      have : isNoDefault (resolvedVal kwargs (n, d)) = false := hval
      simp [this, resolvedVal]

theorem extract_kwonlies_ok (fname : String)
    (kwds kwargs : List (String × Val))
    (hnodup : (kwds.map Prod.fst).Nodup)
    (hbag : (kwargs.map Prod.fst).Nodup)
    (hval : ∀ nd ∈ kwds, isNoDefault (resolvedVal kwargs nd) = false) :
    extract_kwonlies fname kwds kwargs =
      Except.ok (kwds.map (resolvedVal kwargs),
        kwargs.filter (fun kv => !(kwds.map Prod.fst).contains kv.1)) := by
  unfold extract_kwonlies
  rw [extractLoop_spec kwds kwargs hnodup hbag]
  have hmiss : kwds.filter
      (fun nd => isNoDefault (resolvedVal kwargs nd)) = [] := by
    apply List.filter_eq_nil_iff.mpr
    intro nd hnd
    rw [hval nd hnd]
    exact Bool.false_ne_true
  have hkeep : kwds.filter
      (fun nd => !isNoDefault (resolvedVal kwargs nd)) = kwds := by
    apply List.filter_eq_self.mpr
    intro nd hnd
    rw [hval nd hnd]
    rfl
  rw [hmiss, hkeep]
  rfl

theorem extract_kwonlies_missing (fname : String)
    (kwds kwargs : List (String × Val))
    (hnodup : (kwds.map Prod.fst).Nodup)
    (hbag : (kwargs.map Prod.fst).Nodup)
    (hmiss : kwds.filter (fun nd => isNoDefault (resolvedVal kwargs nd)) ≠ []) :
    extract_kwonlies fname kwds kwargs =
      Except.error (missingMsg fname
        ((kwds.filter (fun nd => isNoDefault (resolvedVal kwargs nd))).map
          Prod.fst)) := by
  unfold extract_kwonlies
  rw [extractLoop_spec kwds kwargs hnodup hbag]
  have : ((kwds.filter
      (fun nd => isNoDefault (resolvedVal kwargs nd))).map
        Prod.fst).isEmpty = false := by
    rw [List.isEmpty_eq_false_iff_exists_mem]
    obtain ⟨x, hx⟩ := List.exists_mem_of_ne_nil _ hmiss
    exact ⟨x.1, List.mem_map.mpr ⟨x, hx, rfl⟩⟩
  simp only [this, Bool.false_eq_true, if_false]

theorem formatArgsList_eq_specNameList (l : List String) :
    formatArgsList l = specNameList l := by
  cases l with
  | nil => rfl
  | cons a t =>
    cases t with
    | nil => rfl
    | cons b t2 =>
      cases t2 with
      | nil => rfl
      | cons c t3 => rfl

theorem missingMsg_eq_spec (fname : String) (l : List String) :
    missingMsg fname l = specMissingMsg fname l := by
  unfold missingMsg specMissingMsg
  rw [formatArgsList_eq_specNameList]
  by_cases h : l.length = 1
  · simp [h]
  · simp [h]

/-! ### Call-binding lemmas -/

theorem zip_append_right_of_length_eq {α β : Type} (a : List α)
    (c d : List β) (h : a.length = c.length) : a.zip (c ++ d) = a.zip c := by
  induction a generalizing c with
  | nil => simp
  | cons x a ih =>
    cases c with
    | nil => simp at h
    | cons y c =>
      simp only [List.length_cons, Nat.succ.injEq] at h
      simp [List.zip_cons_cons, ih c h]

theorem resolveParams_ok_append {pos : List Val}
    {kws dflts : List (String × Val)} {l1 l2 : List String} {i : Nat}
    {e1 e2 : List (String × Val)}
    (h1 : resolveParams pos kws dflts i l1 = Except.ok e1)
    (h2 : resolveParams pos kws dflts (i + l1.length) l2 = Except.ok e2) :
    resolveParams pos kws dflts i (l1 ++ l2) = Except.ok (e1 ++ e2) := by
  induction l1 generalizing i e1 with
  | nil =>
    simp only [resolveParams] at h1
    cases h1
    simpa using h2
  | cons n rest ih =>
    simp only [resolveParams] at h1 ⊢
    cases hrp : resolveParam pos kws dflts i n with
    | error e =>
      rw [hrp] at h1
      cases h1
    | ok v =>
      rw [hrp] at h1
      cases hrest : resolveParams pos kws dflts (i + 1) rest with
      | error e =>
        rw [hrest] at h1
        cases h1
      | ok tail =>
        rw [hrest] at h1
        simp only [Except.map] at h1
        cases h1
        have h2a : resolveParams pos kws dflts (i + 1 + rest.length) l2 =
            Except.ok e2 := by
          have harith : i + 1 + rest.length = i + (n :: rest).length := by
            simp [List.length_cons]
            omega
          rw [harith]
          exact h2
        show Except.map (fun tail => (n, v) :: tail)
          (resolveParams pos kws dflts (i + 1) (rest ++ l2)) =
          Except.ok ((n, v) :: tail ++ e2)
        rw [ih hrest h2a]
        rfl

theorem resolveParams_positional (params : List String) (pos : List Val)
    (kws dflts : List (String × Val)) :
    ∀ (i : Nat), i + params.length ≤ pos.length →
    (∀ p ∈ params, lookupVal kws p = none) →
    resolveParams pos kws dflts i params =
      Except.ok (params.zip (pos.drop i)) := by
  induction params with
  | nil => intro i _ _; rfl
  | cons p rest ih =>
    intro i hlen hnk
    have hi : i < pos.length := by
      simp only [List.length_cons] at hlen
      omega
    have hlook : lookupVal kws p = none := hnk p (List.mem_cons_self p rest)
    simp only [resolveParams, resolveParam, hi, if_pos, hlook,
      Option.isSome_none, Bool.false_eq_true, if_false]
    have hrest : resolveParams pos kws dflts (i + 1) rest =
        Except.ok (rest.zip (pos.drop (i + 1))) := by
      apply ih (i + 1)
      · simp only [List.length_cons] at hlen
        omega
      · intro q hq
        exact hnk q (List.mem_cons_of_mem p hq)
    rw [hrest]
    have hdrop : pos.drop i = pos[i] :: pos.drop (i + 1) :=
      List.drop_eq_getElem_cons hi
    have hget : pos.getD i Val.noDefault = pos[i] :=
      List.getD_eq_getElem pos Val.noDefault hi
    show Except.ok ((p, pos.getD i Val.noDefault) ::
        rest.zip (pos.drop (i + 1))) =
      Except.ok ((p :: rest).zip (pos.drop i))
    rw [hget, hdrop, List.zip_cons_cons]

theorem resolveParams_keyword (params : List String) (pos : List Val)
    (kws dflts : List (String × Val)) (v : String → Val) :
    ∀ (i : Nat), pos.length ≤ i →
    (∀ p ∈ params, lookupVal kws p = some (v p)) →
    resolveParams pos kws dflts i params =
      Except.ok (params.map (fun p => (p, v p))) := by
  induction params with
  | nil => intro i _ _; rfl
  | cons p rest ih =>
    intro i hi hk
    have hnlt : ¬ i < pos.length := by omega
    have hlook : lookupVal kws p = some (v p) :=
      hk p (List.mem_cons_self p rest)
    simp only [resolveParams, resolveParam, hnlt, if_false, hlook]
    have hrest : resolveParams pos kws dflts (i + 1) rest =
        Except.ok (rest.map (fun q => (q, v q))) := by
      apply ih (i + 1) (by omega)
      intro q hq
      exact hk q (List.mem_cons_of_mem p hq)
    rw [hrest]
    rfl

theorem bindCallSplit_wrapper (plains : List String) (fva : Option String)
    (bagName : String) (pvals extras : List Val) (kw : List (String × Val))
    (hlen : pvals.length = plains.length)
    (hext : fva = none → extras = [])
    (hdup : hasDupKeys kw = false)
    (hnk : ∀ p ∈ plains, lookupVal kw p = none) :
    bindCallSplit plains [] fva (some bagName) (pvals ++ extras) kw =
      Except.ok (plains.zip pvals, extras, kw) := by
  unfold bindCallSplit
  have hc1 : ¬ (plains.length < (pvals ++ extras).length ∧ fva = none) := by
    rintro ⟨hlt, hnone⟩
    rw [hext hnone] at hlt
    simp [hlen] at hlt
  rw [if_neg hc1, hdup]
  have hc3 : ¬ ((some bagName : Option String) = none ∧
      kw.any (fun kv => !plains.contains kv.1) = true) := by
    rintro ⟨h, _⟩
    cases h
  simp only [Bool.false_eq_true, if_false]
  rw [if_neg hc3]
  have hres : resolveParams (pvals ++ extras) kw [] 0 plains =
      Except.ok (plains.zip ((pvals ++ extras).drop 0)) := by
    apply resolveParams_positional
    · simp [← hlen]
    · exact hnk
  rw [hres]
  have hzip : plains.zip ((pvals ++ extras).drop 0) = plains.zip pvals := by
    rw [List.drop_zero]
    exact zip_append_right_of_length_eq plains pvals extras hlen.symm
  have hdrop : (pvals ++ extras).drop plains.length = extras := by
    rw [← hlen]
    exact List.drop_left pvals extras
  have hfilt : kw.filter (fun kv => !plains.contains kv.1) = kw := by
    apply List.filter_eq_self.mpr
    intro kv hkv
    have : kv.1 ∉ plains := by
      intro hc
      have := hnk kv.1 hc
      rw [lookupVal_eq_none] at this
      exact this (List.mem_map.mpr ⟨kv, hkv, rfl⟩)
    simp [this]
  rw [hzip, hdrop, hfilt]

theorem zip_self_map {α β : Type} (l : List α) (f : α → β) :
    l.zip (l.map f) = l.map (fun x => (x, f x)) := by
  induction l with
  | nil => rfl
  | cons x t ih => simp [List.zip_cons_cons, ih]

theorem bindCall_fcall (plains : List String) (marker : Option String)
    (kwds : List (String × Val)) (bag : String)
    (dflts : List (String × Val))
    (pvals extras : List Val) (kw : List (String × Val))
    (hmname : ∀ m, marker = some m → m ≠ "")
    (hnodup : (plains ++ marker.toList ++ kwds.map Prod.fst).Nodup)
    (hlen : pvals.length = plains.length)
    (hkwdup : hasDupKeys kw = false)
    (hkwcls : ∀ kv ∈ kw, kv.1 ∈ kwds.map Prod.fst ∨
      kv.1 ∉ plains ++ marker.toList ++ kwds.map Prod.fst) :
    bindCall (plains ++ marker.toList ++ kwds.map Prod.fst) dflts
        none (some bag)
        (pvals ++ (if pyTruthy marker then [Val.tuple extras] else []))
        (kwds.map (fun nd => (nd.1, resolvedVal kw nd)) ++
          kw.filter (fun kv => !(kwds.map Prod.fst).contains kv.1)) =
      Except.ok (directResolvedEnv plains marker kwds bag pvals extras kw)
    := by
  have hnd1 := List.nodup_append.mp hnodup
  have hnd2 := List.nodup_append.mp hnd1.1
  have hkwkeys : (kw.map Prod.fst).Nodup := hasDupKeys_eq_false.mp hkwdup
  have hmt : (if pyTruthy marker then [Val.tuple extras] else []) =
      marker.toList.map (fun _ => Val.tuple extras) := by
    cases marker with
    | none => rfl
    | some m =>
      have hm : m ≠ "" := hmname m rfl
      simp [pyTruthy, Option.toList, hm]
  rw [hmt]
  have hkAkeys : (kwds.map (fun nd => (nd.1, resolvedVal kw nd))).map
      Prod.fst = kwds.map Prod.fst := by
    rw [List.map_map]
    rfl
  have hbag2sub : ∀ kv, kv ∈ kw.filter
      (fun kv2 => !(kwds.map Prod.fst).contains kv2.1) →
      kv ∈ kw ∧ kv.1 ∉ kwds.map Prod.fst := by
    intro kv hkv
    have h1 := List.mem_of_mem_filter hkv
    have h2 := List.of_mem_filter hkv
    refine ⟨h1, ?_⟩
    intro hc
    have hct : (kwds.map Prod.fst).contains kv.1 = true :=
      List.elem_iff.mpr hc
    rw [hct] at h2
    exact absurd h2 (by decide)
  have hfkeys : ((kwds.map (fun nd => (nd.1, resolvedVal kw nd)) ++
      kw.filter (fun kv => !(kwds.map Prod.fst).contains kv.1)).map
        Prod.fst).Nodup := by
    rw [List.map_append, hkAkeys]
    rw [List.nodup_append]
    refine ⟨hnd1.2.1, ?_, ?_⟩
    · exact List.Nodup.sublist
        (List.Sublist.map Prod.fst (List.filter_sublist _)) hkwkeys
    · intro x hx hx2
      obtain ⟨kv, hkv, rfl⟩ := List.mem_map.mp hx2
      exact (hbag2sub kv hkv).2 hx
  have hfdup : hasDupKeys (kwds.map (fun nd => (nd.1, resolvedVal kw nd)) ++
      kw.filter (fun kv => !(kwds.map Prod.fst).contains kv.1)) = false :=
    hasDupKeys_eq_false.mpr hfkeys
  have hnotin : ∀ p ∈ plains ++ marker.toList,
      lookupVal (kwds.map (fun nd => (nd.1, resolvedVal kw nd)) ++
        kw.filter (fun kv => !(kwds.map Prod.fst).contains kv.1)) p =
      none := by
    intro p hp
    rw [lookupVal_eq_none, List.map_append, hkAkeys]
    intro hmem
    rcases List.mem_append.mp hmem with hmem | hmem
    · exact hnd1.2.2 hp hmem
    · obtain ⟨kv, hkv, rfl⟩ := List.mem_map.mp hmem
      obtain ⟨hkw2, hnk2⟩ := hbag2sub kv hkv
      rcases hkwcls kv hkw2 with hc | hc
      · exact hnk2 hc
      · exact hc (List.mem_append_left _ hp)
  have hlenA : (plains ++ marker.toList).length =
      (pvals ++ marker.toList.map (fun _ => Val.tuple extras)).length := by
    simp [hlen]
  have hsegA : resolveParams
      (pvals ++ marker.toList.map (fun _ => Val.tuple extras))
      (kwds.map (fun nd => (nd.1, resolvedVal kw nd)) ++
        kw.filter (fun kv => !(kwds.map Prod.fst).contains kv.1))
      dflts 0 (plains ++ marker.toList) =
      Except.ok ((plains ++ marker.toList).zip
        ((pvals ++ marker.toList.map (fun _ => Val.tuple extras)).drop 0))
      := by
    apply resolveParams_positional
    · omega
    · exact hnotin
  have hlookB : ∀ k ∈ kwds.map Prod.fst,
      ∃ nd, nd ∈ kwds ∧ nd.1 = k ∧
      lookupVal (kwds.map (fun nd => (nd.1, resolvedVal kw nd)) ++
        kw.filter (fun kv => !(kwds.map Prod.fst).contains kv.1)) k =
        some (resolvedVal kw nd) := by
    intro k hk
    obtain ⟨nd, hnd, rfl⟩ := List.mem_map.mp hk
    refine ⟨nd, hnd, rfl, ?_⟩
    rw [lookupVal_append]
    rw [lookupVal_map_keyed (resolvedVal kw) hnd1.2.1 hnd]
    rfl
  have hsegB : resolveParams
      (pvals ++ marker.toList.map (fun _ => Val.tuple extras))
      (kwds.map (fun nd => (nd.1, resolvedVal kw nd)) ++
        kw.filter (fun kv => !(kwds.map Prod.fst).contains kv.1))
      dflts (0 + (plains ++ marker.toList).length) (kwds.map Prod.fst) =
      Except.ok ((kwds.map Prod.fst).map (fun k => (k,
        (lookupVal (kwds.map (fun nd => (nd.1, resolvedVal kw nd)) ++
          kw.filter (fun kv => !(kwds.map Prod.fst).contains kv.1))
          k).getD Val.noDefault))) := by
    apply resolveParams_keyword
    · omega
    · intro k hk
      obtain ⟨nd, _, _, hl⟩ := hlookB k hk
      rw [hl]
      rfl
  have hres := resolveParams_ok_append hsegA hsegB
  have hzipA : (plains ++ marker.toList).zip
      ((pvals ++ marker.toList.map (fun _ => Val.tuple extras)).drop 0) =
      plains.zip pvals ++
        marker.toList.map (fun m => (m, Val.tuple extras)) := by
    rw [List.drop_zero, List.zip_append hlen.symm, zip_self_map]
  have hmapB : (kwds.map Prod.fst).map (fun k => (k,
      (lookupVal (kwds.map (fun nd => (nd.1, resolvedVal kw nd)) ++
        kw.filter (fun kv => !(kwds.map Prod.fst).contains kv.1))
        k).getD Val.noDefault)) =
      kwds.map (fun nd => (nd.1, resolvedVal kw nd)) := by
    rw [List.map_map]
    apply List.map_congr_left
    intro nd hnd
    obtain ⟨nd2, hnd2, hfst, hl⟩ :=
      hlookB nd.1 (List.mem_map.mpr ⟨nd, hnd, rfl⟩)
    have hnd2eq : nd2 = nd := by
      have h1 : lookupVal kwds nd2.1 = some nd2.2 :=
        lookupVal_self hnd1.2.1 hnd2
      have h2 : lookupVal kwds nd.1 = some nd.2 :=
        lookupVal_self hnd1.2.1 hnd
      rw [hfst, h2] at h1
      obtain ⟨a, b⟩ := nd
      obtain ⟨a2, b2⟩ := nd2
      simp only at hfst
      cases h1
      rw [hfst]
    simp only [Function.comp]
    rw [hl, hnd2eq]
    rfl
  unfold bindCall bindCallSplit
  have hc1 : ¬ ((plains ++ marker.toList ++ kwds.map Prod.fst).length <
      (pvals ++ marker.toList.map (fun _ => Val.tuple extras)).length ∧
      (none : Option String) = none) := by
    rintro ⟨hlt, _⟩
    simp only [List.length_append, List.length_map, hlen] at hlt
    omega
  rw [if_neg hc1, hfdup]
  simp only [Bool.false_eq_true, if_false]
  have hc3 : ¬ ((some bag : Option String) = none ∧
      ((kwds.map (fun nd => (nd.1, resolvedVal kw nd)) ++
        kw.filter (fun kv => !(kwds.map Prod.fst).contains kv.1)).any
        (fun kv => !(plains ++ marker.toList ++
          kwds.map Prod.fst).contains kv.1)) = true) := by
    rintro ⟨h, _⟩
    cases h
  rw [if_neg hc3, hres, hzipA, hmapB]
  have hdropF : (pvals ++ marker.toList.map
      (fun _ => Val.tuple extras)).drop
      (plains ++ marker.toList ++ kwds.map Prod.fst).length = [] := by
    apply List.drop_eq_nil_of_le
    simp [hlen]
  have hfiltF : (kwds.map (fun nd => (nd.1, resolvedVal kw nd)) ++
      kw.filter (fun kv => !(kwds.map Prod.fst).contains kv.1)).filter
        (fun kv => !(plains ++ marker.toList ++
          kwds.map Prod.fst).contains kv.1) =
      kw.filter (fun kv => !(kwds.map Prod.fst).contains kv.1) := by
    rw [List.filter_append]
    have hA : (kwds.map (fun nd => (nd.1, resolvedVal kw nd))).filter
        (fun kv => !(plains ++ marker.toList ++
          kwds.map Prod.fst).contains kv.1) = [] := by
      apply List.filter_eq_nil_iff.mpr
      intro kv hkv
      obtain ⟨nd, hnd, rfl⟩ := List.mem_map.mp hkv
      have hmem : nd.1 ∈ plains ++ marker.toList ++ kwds.map Prod.fst :=
        List.mem_append_right _ (List.mem_map.mpr ⟨nd, hnd, rfl⟩)
      have hct : (plains ++ marker.toList ++
          kwds.map Prod.fst).contains nd.1 = true :=
        List.elem_iff.mpr hmem
      rw [hct]
      decide
    have hB : (kw.filter
        (fun kv => !(kwds.map Prod.fst).contains kv.1)).filter
        (fun kv => !(plains ++ marker.toList ++
          kwds.map Prod.fst).contains kv.1) =
        kw.filter (fun kv => !(kwds.map Prod.fst).contains kv.1) := by
      apply List.filter_eq_self.mpr
      intro kv hkv
      obtain ⟨hkw2, hnk2⟩ := hbag2sub kv hkv
      have hnotmem : kv.1 ∉ plains ++ marker.toList ++ kwds.map Prod.fst := by
        rcases hkwcls kv hkw2 with hc | hc
        · exact absurd hc hnk2
        · exact hc
      have hcf : (plains ++ marker.toList ++
          kwds.map Prod.fst).contains kv.1 = false := by
        rw [Bool.eq_false_iff]
        intro hc2
        exact hnotmem (List.elem_iff.mp hc2)
      rw [hcf]
      decide
    rw [hA, hB, List.nil_append]
  rw [hdropF, hfiltF]
  show Except.ok _ = Except.ok _
  simp [directResolvedEnv, resolvedVal, List.append_assoc]

/-- End-to-end behaviour of a decorated call that supplies all plain
positional values, extra positionals only when a capture parameter exists,
keyword values (never the sentinel) for a subset of the keyword-only names
covering every no-default one, and extra keywords that match no declared
parameter name: the original function's body runs in exactly the directly
resolved environment. -/
theorem wrapperInvoke_ok (fname : String) (plains : List String)
    (marker : Option String) (kwds : List (String × Val)) (bag fresh : String)
    (pvals extras : List Val) (kw : List (String × Val))
    (hkne : kwds ≠ [])
    (hpne : plains ≠ [])
    (hpnames : ∀ p ∈ plains, p ≠ "")
    (hmname : ∀ m, marker = some m → m ≠ "")
    (hnodup : (plains ++ marker.toList ++ kwds.map Prod.fst).Nodup)
    (hlen : pvals.length = plains.length)
    (hext : marker = none → extras = [])
    (hkwdup : hasDupKeys kw = false)
    (hkwcls : ∀ kv ∈ kw, kv.1 ∈ kwds.map Prod.fst ∨
      kv.1 ∉ plains ++ marker.toList ++ kwds.map Prod.fst)
    (hkwval : ∀ kv ∈ kw, kv.1 ∈ kwds.map Prod.fst → isNoDefault kv.2 = false)
    (hcover : ∀ nd ∈ kwds, isNoDefault nd.2 = true → nd.1 ∈ kw.map Prod.fst) :
    wrapperInvoke fname (mkSpec plains marker kwds bag) fresh
        (pvals ++ extras) kw =
      Except.ok (directResolvedEnv plains marker kwds bag pvals extras kw)
    := by
  have hargsnd : (mkSpec plains marker kwds bag).args.Nodup := hnodup
  have hnd1 := List.nodup_append.mp hnodup
  have hnkplains : ∀ p ∈ plains, lookupVal kw p = none := by
    intro p hp
    rw [lookupVal_eq_none]
    intro hmem
    obtain ⟨kv, hkv, hfst⟩ := List.mem_map.mp hmem
    rcases hkwcls kv hkv with hc | hc
    · rw [hfst] at hc
      exact hnd1.2.2 (List.mem_append_left _ hp) hc
    · rw [hfst] at hc
      exact hc (List.mem_append_left _ (List.mem_append_left _ hp))
  have hvals : ∀ nd ∈ kwds, isNoDefault (resolvedVal kw nd) = false := by
    intro nd hnd
    cases hlk : lookupVal kw nd.1 with
    | some v =>
      have hkv := lookupVal_mem hlk
      have hv := hkwval (nd.1, v) hkv (List.mem_map.mpr ⟨nd, hnd, rfl⟩)
      unfold resolvedVal
      rw [hlk]
      exact hv
    | none =>
      unfold resolvedVal
      rw [hlk]
      rw [Bool.eq_false_iff]
      intro htrue
      have hm := hcover nd hnd (by simpa using htrue)
      rw [lookupVal_eq_none] at hlk
      exact hlk hm
  unfold wrapperInvoke
  rw [with_kwonly_shape plains marker kwds bag fresh hkne hpne hpnames hmname
    hargsnd]
  simp only []
  rw [bindCallSplit_wrapper plains marker bag pvals extras kw hlen hext
    hkwdup hnkplains]
  simp only []
  rw [extract_kwonlies_ok fname kwds kw hnd1.2.1
    (hasDupKeys_eq_false.mp hkwdup) hvals]
  simp only []
  rw [show (plains.zip pvals).map Prod.snd = pvals from
    List.map_snd_zip plains pvals (le_of_eq hlen)]
  rw [show (kwds.map Prod.fst).zip (kwds.map (fun nd => resolvedVal kw nd)) =
    kwds.map (fun nd => (nd.1, resolvedVal kw nd)) from
    List.zip_map' Prod.fst (fun nd => resolvedVal kw nd) kwds]
  rw [show (mkSpec plains marker kwds bag).varargs = none from rfl,
    show (mkSpec plains marker kwds bag).keywords = some bag from rfl]
  rw [show (mkSpec plains marker kwds bag).args =
    plains ++ marker.toList ++ kwds.map Prod.fst from rfl]
  rw [bindCall_fcall plains marker kwds bag _ pvals extras kw hmname hnodup
    hlen hkwdup hkwcls]
  rfl

/-- End-to-end behaviour of a decorated call that leaves at least one
keyword-only parameter unresolved: the aggregated missing-argument
`TypeError`. -/
theorem wrapperInvoke_missing (fname : String) (plains : List String)
    (marker : Option String) (kwds : List (String × Val)) (bag fresh : String)
    (pvals extras : List Val) (kw : List (String × Val))
    (hkne : kwds ≠ [])
    (hpne : plains ≠ [])
    (hpnames : ∀ p ∈ plains, p ≠ "")
    (hmname : ∀ m, marker = some m → m ≠ "")
    (hnodup : (plains ++ marker.toList ++ kwds.map Prod.fst).Nodup)
    (hlen : pvals.length = plains.length)
    (hext : marker = none → extras = [])
    (hkwdup : hasDupKeys kw = false)
    (hkwcls : ∀ kv ∈ kw, kv.1 ∈ kwds.map Prod.fst ∨
      kv.1 ∉ plains ++ marker.toList ++ kwds.map Prod.fst)
    (hmiss : kwds.filter (fun nd => isNoDefault (resolvedVal kw nd)) ≠ []) :
    wrapperInvoke fname (mkSpec plains marker kwds bag) fresh
        (pvals ++ extras) kw =
      Except.error (PyErr.typeErr (missingMsg fname
        ((kwds.filter (fun nd => isNoDefault (resolvedVal kw nd))).map
          Prod.fst))) := by
  have hargsnd : (mkSpec plains marker kwds bag).args.Nodup := hnodup
  have hnd1 := List.nodup_append.mp hnodup
  have hnkplains : ∀ p ∈ plains, lookupVal kw p = none := by
    intro p hp
    rw [lookupVal_eq_none]
    intro hmem
    obtain ⟨kv, hkv, hfst⟩ := List.mem_map.mp hmem
    rcases hkwcls kv hkv with hc | hc
    · rw [hfst] at hc
      exact hnd1.2.2 (List.mem_append_left _ hp) hc
    · rw [hfst] at hc
      exact hc (List.mem_append_left _ (List.mem_append_left _ hp))
  unfold wrapperInvoke
  rw [with_kwonly_shape plains marker kwds bag fresh hkne hpne hpnames hmname
    hargsnd]
  simp only []
  rw [bindCallSplit_wrapper plains marker bag pvals extras kw hlen hext
    hkwdup hnkplains]
  simp only []
  rw [extract_kwonlies_missing fname kwds kw hnd1.2.1
    (hasDupKeys_eq_false.mp hkwdup) hmiss]

/-- Under the hypothesis that no supplied keyword value is the sentinel,
the set of unresolved keyword-only parameters is exactly those declared
without a default and not supplied. -/
theorem missFilter_congr (kwds kw : List (String × Val))
    (hkwval : ∀ kv ∈ kw, kv.1 ∈ kwds.map Prod.fst →
      isNoDefault kv.2 = false) :
    kwds.filter (fun nd => isNoDefault (resolvedVal kw nd)) =
      kwds.filter (fun nd =>
        isNoDefault nd.2 && !(kw.map Prod.fst).contains nd.1) := by
  apply List.filter_congr
  intro nd hnd
  cases hlk : lookupVal kw nd.1 with
  | some v =>
    have hkv := lookupVal_mem hlk
    have hv := hkwval (nd.1, v) hkv (List.mem_map.mpr ⟨nd, hnd, rfl⟩)
    have hres : resolvedVal kw nd = v := by
      unfold resolvedVal
      rw [hlk]
      rfl
    have hcont : (kw.map Prod.fst).contains nd.1 = true :=
      List.elem_iff.mpr (List.mem_map.mpr ⟨(nd.1, v), hkv, rfl⟩)
    rw [hres, hv, hcont]
    simp
  | none =>
    have hres : resolvedVal kw nd = nd.2 := by
      unfold resolvedVal
      rw [hlk]
      rfl
    have hcont : (kw.map Prod.fst).contains nd.1 = false := by
      rw [Bool.eq_false_iff]
      intro hc
      rw [lookupVal_eq_none] at hlk
      exact hlk (List.elem_iff.mp hc)
    rw [hres, hcont]
    simp

/-! ### Walk lemmas for the ordering-error claims -/

theorem walkStep_plain2 {st : WalkSt} {p : String × Val}
    (hp : isPlainVal p.2 = true)
    (hv : (st.found_vararg.isSome && !st.real_vararg) = false)
    (hk : pyTruthy st.found_kwonly = false) :
    walkStep st p = Except.ok st := by
  obtain ⟨n, v⟩ := p
  cases hfv : st.found_vararg with
  | none =>
    cases v <;> simp_all [walkStep, isPlainVal, isKwDecl, isVarargS]
  | some fv =>
    cases hrv : st.real_vararg with
    | false =>
      rw [hfv, hrv] at hv
      simp at hv
    | true =>
      cases v <;> simp_all [walkStep, isPlainVal, isKwDecl, isVarargS]

theorem walk_plainSeg2 (ps : List (String × Val)) (st : WalkSt)
    (hp : ∀ p ∈ ps, isPlainVal p.2 = true)
    (hv : (st.found_vararg.isSome && !st.real_vararg) = false)
    (hk : pyTruthy st.found_kwonly = false) : walk ps st = Except.ok st := by
  induction ps with
  | nil => rfl
  | cons p ps ih =>
    have h1 : walkStep st p = Except.ok st :=
      walkStep_plain2 (hp p (List.mem_cons_self p ps)) hv hk
    have h2 : walk (p :: ps) st = walk ps st := by
      simp only [walk, List.foldlM_cons, h1]
      rfl
    rw [h2]
    exact ih (fun q hq => hp q (List.mem_cons_of_mem p hq))

theorem walk_kwAny (ps : List (String × Val)) :
    ∀ (st : WalkSt), (∀ p ∈ ps, isKwDecl p.2 = true) →
    ∃ kd fk, walk ps st = Except.ok
      ⟨st.kwonly_defaults ++ kd, fk, st.found_vararg, st.real_vararg⟩ := by
  induction ps with
  | nil =>
    intro st _
    refine ⟨[], st.found_kwonly, ?_⟩
    simp only [List.append_nil]
    rfl
  | cons p rest ih =>
    intro st hp
    have hkd : isKwDecl p.2 = true := hp p (List.mem_cons_self p rest)
    obtain ⟨n, v⟩ := p
    cases v with
    | kw d =>
      have hstep : walkStep st (n, Val.kw d) = Except.ok { st with
          found_kwonly := some n,
          kwonly_defaults := st.kwonly_defaults ++ [(n, d)] } := rfl
      have h2 : walk ((n, Val.kw d) :: rest) st = walk rest { st with
          found_kwonly := some n,
          kwonly_defaults := st.kwonly_defaults ++ [(n, d)] } := by
        simp only [walk, List.foldlM_cons, hstep]
        rfl
      obtain ⟨kd, fk, hrest⟩ := ih { st with
          found_kwonly := some n,
          kwonly_defaults := st.kwonly_defaults ++ [(n, d)] }
        (fun q hq => hp q (List.mem_cons_of_mem _ hq))
      refine ⟨(n, d) :: kd, fk, ?_⟩
      rw [h2, hrest]
      simp [List.append_assoc]
    | noDefault => simp [isKwDecl] at hkd
    | varargS => simp [isKwDecl] at hkd
    | int k => simp [isKwDecl] at hkd
    | str s => simp [isKwDecl] at hkd
    | tuple xs => simp [isKwDecl] at hkd
    | dict es => simp [isKwDecl] at hkd

theorem walkStep_plain_err_kw {st : WalkSt} {p : String × Val}
    (hp : isPlainVal p.2 = true)
    (hv : (st.found_vararg.isSome && !st.real_vararg) = false)
    (hk : pyTruthy st.found_kwonly = true) :
    walkStep st p = Except.error ("non keyword only argument " ++
      pyrepr p.1 ++ " follows keyword argument " ++
      pyrepr (st.found_kwonly.getD "")) := by
  obtain ⟨n, v⟩ := p
  cases hfv : st.found_vararg with
  | none =>
    cases v <;> simp_all [walkStep, isPlainVal, isKwDecl, isVarargS]
  | some fv =>
    cases hrv : st.real_vararg with
    | false =>
      rw [hfv, hrv] at hv
      simp at hv
    | true =>
      cases v <;> simp_all [walkStep, isPlainVal, isKwDecl, isVarargS]

theorem walkStep_after_marker_err {st : WalkSt} {p : String × Val} {fv : String}
    (hp : isKwDecl p.2 = false)
    (hfv : st.found_vararg = some fv) (hrv : st.real_vararg = false) :
    walkStep st p = Except.error (if isVarargS p.2 = true
      then "duplicate " ++ pyrepr "vararg" ++ " arguments"
      else "non keyword only argument " ++ pyrepr p.1 ++
        " follows vararg " ++ pyrepr fv) := by
  obtain ⟨n, v⟩ := p
  cases v <;> simp_all [walkStep, isKwDecl, isVarargS]

theorem walk_error (l : List (String × Val)) (e : String) :
    (Except.error e : Except String WalkSt) >>=
      (fun st2 => walk l st2) = Except.error e := rfl

theorem defaultPairs_self (l : List (String × Val)) :
    defaultPairs (l.map Prod.fst) (l.map Prod.snd) = l := by
  rw [defaultPairs_zip _ _ (by simp), List.zip_map']
  simp

/-! ## Claims -/

/-- C1: for every function declaring plain parameters, optionally one
vararg-marker parameter, and keyword-only parameters (with or without
defaults), and for every call to the decorated function that supplies all
plain positional values, any extra positional values, keyword values for a
subset of the keyword-only names covering all no-default ones, and any
extra keyword values, the decorated function returns exactly the value of
calling the original function directly with the plain values, the extra
positionals bound to the capture parameter, each keyword-only parameter
bound to its supplied value or otherwise its recorded default, and the
remaining keyword values in the catch-all keyword bag. -/
theorem C1_decorated_call_refines_direct_call
    (fname : String) (plains : List String) (marker : Option String)
    (kwds : List (String × Val)) (bag fresh : String)
    (pvals extras : List Val) (kw : List (String × Val))
    (body : List (String × Val) → Val)
    (hkne : kwds ≠ []) (hpne : plains ≠ [])
    (hpnames : ∀ p ∈ plains, p ≠ "")
    (hmname : ∀ m, marker = some m → m ≠ "")
    (hnodup : (plains ++ marker.toList ++ kwds.map Prod.fst).Nodup)
    (hlen : pvals.length = plains.length)
    (hext : marker = none → extras = [])
    (hkwdup : hasDupKeys kw = false)
    (hkwcls : ∀ kv ∈ kw, kv.1 ∈ kwds.map Prod.fst ∨
      kv.1 ∉ plains ++ marker.toList ++ kwds.map Prod.fst)
    (hkwval : ∀ kv ∈ kw, kv.1 ∈ kwds.map Prod.fst →
      isNoDefault kv.2 = false)
    (hcover : ∀ nd ∈ kwds, isNoDefault nd.2 = true →
      nd.1 ∈ kw.map Prod.fst) :
    (wrapperInvoke fname (mkSpec plains marker kwds bag) fresh
        (pvals ++ extras) kw).map body =
      Except.ok
        (body (directResolvedEnv plains marker kwds bag pvals extras kw))
    := by
  rw [wrapperInvoke_ok fname plains marker kwds bag fresh pvals extras kw
    hkne hpne hpnames hmname hnodup hlen hext hkwdup hkwcls hkwval hcover]
  rfl

/-- Witness for C1: the docstring example
`f(a, args=vararg, b=kwonly(), c=kwonly('default'), **kwargs)` called as
`f(1, 2, 3, b='b', f='f')`. -/
theorem C1_witness :
    (["a"] : List String) ≠ [] ∧
    ([Val.int 1] : List Val).length = (["a"] : List String).length ∧
    hasDupKeys [("b", Val.str "b"), ("f", Val.str "f")] = false ∧
    (wrapperInvoke "f"
        (mkSpec ["a"] (some "args")
          [("b", Val.noDefault), ("c", Val.str "default")] "kwargs") "u"
        ([Val.int 1] ++ [Val.int 2, Val.int 3])
        [("b", Val.str "b"), ("f", Val.str "f")]).map Val.dict =
      Except.ok (Val.dict (directResolvedEnv ["a"] (some "args")
        [("b", Val.noDefault), ("c", Val.str "default")] "kwargs"
        [Val.int 1] [Val.int 2, Val.int 3]
        [("b", Val.str "b"), ("f", Val.str "f")])) :=
  ⟨by decide, by decide, by decide,
    C1_decorated_call_refines_direct_call "f" ["a"] (some "args")
      [("b", Val.noDefault), ("c", Val.str "default")] "kwargs" "u"
      [Val.int 1] [Val.int 2, Val.int 3]
      [("b", Val.str "b"), ("f", Val.str "f")] Val.dict
      (fun h => List.noConfusion h) (by decide) (by decide)
      (by
        intro m hm
        injection hm with h2
        subst h2
        decide)
      (by decide) (by decide) (fun h => Option.noConfusion h) (by decide)
      (by decide) (by decide) (by decide)⟩

/-- C2: when a call leaves keyword-only parameters with neither a supplied
value nor a recorded default, the call raises a `TypeError` naming every
missing parameter in declaration order, with the exact message
`<fname>() missing N required keyword-only argument(s): ...` where the name
list is quoted-singleton for one, `'a' and 'b'` for two, and an
Oxford-comma list for three or more, `argument` being singular exactly when
one is missing; and no such error is raised when every keyword-only
parameter is resolved. -/
theorem C2_missing_kwonly_error
    (fname : String) (plains : List String) (marker : Option String)
    (kwds : List (String × Val)) (bag fresh : String)
    (pvals extras : List Val) (kw : List (String × Val))
    (hkne : kwds ≠ []) (hpne : plains ≠ [])
    (hpnames : ∀ p ∈ plains, p ≠ "")
    (hmname : ∀ m, marker = some m → m ≠ "")
    (hnodup : (plains ++ marker.toList ++ kwds.map Prod.fst).Nodup)
    (hlen : pvals.length = plains.length)
    (hext : marker = none → extras = [])
    (hkwdup : hasDupKeys kw = false)
    (hkwcls : ∀ kv ∈ kw, kv.1 ∈ kwds.map Prod.fst ∨
      kv.1 ∉ plains ++ marker.toList ++ kwds.map Prod.fst)
    (hkwval : ∀ kv ∈ kw, kv.1 ∈ kwds.map Prod.fst →
      isNoDefault kv.2 = false) :
    (kwds.filter (fun nd => isNoDefault nd.2 &&
        !(kw.map Prod.fst).contains nd.1) ≠ [] →
      wrapperInvoke fname (mkSpec plains marker kwds bag) fresh
          (pvals ++ extras) kw =
        Except.error (PyErr.typeErr (specMissingMsg fname
          ((kwds.filter (fun nd => isNoDefault nd.2 &&
            !(kw.map Prod.fst).contains nd.1)).map Prod.fst)))) ∧
    (kwds.filter (fun nd => isNoDefault nd.2 &&
        !(kw.map Prod.fst).contains nd.1) = [] →
      wrapperInvoke fname (mkSpec plains marker kwds bag) fresh
          (pvals ++ extras) kw =
        Except.ok (directResolvedEnv plains marker kwds bag pvals extras kw))
    := by
  have hcongr := missFilter_congr kwds kw hkwval
  constructor
  · intro hne
    rw [wrapperInvoke_missing fname plains marker kwds bag fresh pvals extras
      kw hkne hpne hpnames hmname hnodup hlen hext hkwdup hkwcls
      (by rw [hcongr]; exact hne)]
    rw [hcongr, missingMsg_eq_spec]
  · intro hemp
    apply wrapperInvoke_ok fname plains marker kwds bag fresh pvals extras kw
      hkne hpne hpnames hmname hnodup hlen hext hkwdup hkwcls hkwval
    intro nd hnd hndf
    by_contra hnotin
    have hmem : nd ∈ kwds.filter (fun nd2 => isNoDefault nd2.2 &&
        !(kw.map Prod.fst).contains nd2.1) := by
      rw [List.mem_filter]
      refine ⟨hnd, ?_⟩
      rw [hndf]
      have hcf : (kw.map Prod.fst).contains nd.1 = false := by
        rw [Bool.eq_false_iff]
        intro hc
        exact hnotin (List.elem_iff.mp hc)
      rw [hcf]
      decide
    rw [hemp] at hmem
    cases hmem

/-- Witness for C2: `g(a, b=kwonly(), c=kwonly())` called as `g(1)` raises
`g() missing 2 required keyword-only arguments: 'b' and 'c'`. -/
theorem C2_witness :
    (["a"] : List String) ≠ [] ∧
    wrapperInvoke "g"
        (mkSpec ["a"] none [("b", Val.noDefault), ("c", Val.noDefault)]
          "kk") "u" ([Val.int 1] ++ []) [] =
      Except.error (PyErr.typeErr (specMissingMsg "g"
        (([("b", Val.noDefault), ("c", Val.noDefault)].filter
          (fun nd => isNoDefault nd.2 &&
            !(([] : List (String × Val)).map Prod.fst).contains nd.1)).map
          Prod.fst))) :=
  ⟨by decide,
    (C2_missing_kwonly_error "g" ["a"] none
      [("b", Val.noDefault), ("c", Val.noDefault)] "kk" "u"
      [Val.int 1] [] []
      (fun h => List.noConfusion h) (by decide) (by decide)
      (by intro m hm; cases hm)
      (by decide) (by decide) (by intro h; rfl) (by decide)
      (by intro kv hkv; cases hkv) (by intro kv hkv; cases hkv)).1
      (fun h => List.noConfusion h)⟩

/-- C3 (code bug): decorating a function with zero keyword-only parameters
and no marker returns the very same function object; but when a
marker-introduced vararg is present with zero keyword-only parameters, the
synthesized call text contains an empty item between commas
(`f(a, args, , **<bag>)`), so compiling it raises `SyntaxError: invalid
syntax` instead of returning a new callable. -/
theorem C3_marker_only_synthesis_is_invalid (fresh : String) :
    with_kwonly (ArgSpec.mk ["a", "b"] none none [Val.int 2]) fresh =
      DecorResult.identity ∧
    with_kwonly (ArgSpec.mk ["a", "args"] none none [Val.varargS]) fresh =
      DecorResult.synErr "invalid syntax" ∧
    callItemsOf ["a"] (some "args") [] fresh =
      ["a", "args", "", "**" ++ fresh] ∧
    argStringOf (callItemsOf ["a"] (some "args") [] fresh) =
      "a, args, , **" ++ fresh :=
  ⟨rfl, rfl, rfl, rfl⟩

/-- C7: the synthesized callable reports the original function's
`__name__`, `co_name` and `co_firstlineno`, while keeping the wrapper's
compiled body. -/
theorem C7_metadata_fidelity (f : PyFunc) (wrapperCode : CodeObj) :
    (synthWrap f wrapperCode).name = f.name ∧
    (synthWrap f wrapperCode).code.co_name = f.code.co_name ∧
    (synthWrap f wrapperCode).code.co_firstlineno = f.code.co_firstlineno ∧
    (synthWrap f wrapperCode).code.rest = wrapperCode.rest :=
  ⟨rfl, rfl, rfl, rfl⟩

/-- C8: setting any attribute of a constructed `kwonly` declaration raises
`AttributeError` with the exact message `kwonly objects are immutable`,
while construction succeeds and stores the given default (the `no_default`
sentinel when omitted). -/
theorem C8_kwonly_immutable :
    (∀ (self : KwonlyDecl) (attr : String) (value : Val),
      kwonly_setattr self attr value =
        Except.error (PyErr.attributeErr "kwonly objects are immutable")) ∧
    (∀ d : Val, (kwonly_init d).default = d) ∧
    (kwonly_init).default = Val.noDefault :=
  ⟨fun _ _ _ => rfl, fun _ => rfl, rfl⟩

/-- C9: calling the `no_default` sentinel raises an `AssertionError` with
the exact message `no_default is just a sentinel, why are you calling
this?`, and calling the `vararg` sentinel raises an `AssertionError` with
the exact message `vararg is just a sentinel, why are you calling this?`;
the bodies do nothing else. -/
theorem C9_sentinel_calls_raise :
    no_default_body = Except.error (PyErr.assertionErr
      ("no_default is just a sentinel, why are you calling this?")) ∧
    vararg_body = Except.error (PyErr.assertionErr
      ("vararg is just a sentinel, why are you calling this?")) :=
  ⟨rfl, rfl⟩

/-- Counterexample to C10 as stated: for `f(a, b=kwonly(1), **kk)`,
supplying `b=no_default` raises the missing-argument `TypeError`, while
omitting `b` binds the recorded default `1`; the two calls are therefore
distinguishable. -/
theorem C10_counterexample :
    wrapperInvoke "f" (mkSpec ["a"] none [("b", Val.int 1)] "kk") "u"
        [Val.int 0] [("b", Val.noDefault)] =
      Except.error (PyErr.typeErr (missingMsg "f" ["b"])) ∧
    wrapperInvoke "f" (mkSpec ["a"] none [("b", Val.int 1)] "kk") "u"
        [Val.int 0] [] =
      Except.ok [("a", Val.int 0), ("b", Val.int 1), ("kk", Val.dict [])] ∧
    wrapperInvoke "f" (mkSpec ["a"] none [("b", Val.int 1)] "kk") "u"
        [Val.int 0] [("b", Val.noDefault)] ≠
      wrapperInvoke "f" (mkSpec ["a"] none [("b", Val.int 1)] "kk") "u"
        [Val.int 0] [] :=
  ⟨rfl, rfl, by
    intro h
    have h2 : (Except.error (PyErr.typeErr (missingMsg "f" ["b"])) :
        Except PyErr (List (String × Val))) =
        Except.ok [("a", Val.int 0), ("b", Val.int 1),
          ("kk", Val.dict [])] := h
    exact Except.noConfusion h2⟩

theorem ok_bind {α : Type} (st : WalkSt)
    (f : WalkSt → Except String α) : (Except.ok st >>= f) = f st := rfl

/-- Counterexample to C4 as stated: in `f(k=kwonly(), v=vararg, b=2)` the
plain parameter `b` follows the keyword-only parameter `k`, yet the raised
message is the vararg one, which does not start with
`non keyword only argument 'b' follows keyword argument 'k'`. -/
theorem C4_counterexample :
    with_kwonly (ArgSpec.mk ["k", "v", "b"] none none
        [Val.kw Val.noDefault, Val.varargS, Val.int 2]) "u" =
      DecorResult.synErr ("non keyword only argument " ++ pyrepr "b" ++
        " follows vararg " ++ pyrepr "v") ∧
    ¬ List.IsPrefix ("non keyword only argument " ++ pyrepr "b" ++
        " follows keyword argument " ++ pyrepr "k").data
      ("non keyword only argument " ++ pyrepr "b" ++
        " follows vararg " ++ pyrepr "v").data :=
  ⟨rfl, by decide⟩

/-- C4 (amended): decorating a function in which a plain parameter follows
a keyword-only parameter, with no vararg-marker parameter established
before the plain parameter, raises at decoration time a syntax-error-class
error whose message starts with (here: equals)
`non keyword only argument '<plain>' follows keyword argument '<kwonly>'`,
naming the offending plain parameter and the most recent preceding
keyword-only parameter. -/
theorem C4_plain_after_kwonly_error (ps kwps : List (String × Val))
    (k b : String) (dk vb : Val) (va kwopt : Option String) (fresh : String)
    (hps : ∀ p ∈ ps, isPlainVal p.2 = true)
    (hkw : ∀ p ∈ kwps, isKwDecl p.2 = true)
    (hvb : isPlainVal vb = true)
    (hk : k ≠ "") :
    with_kwonly (ArgSpec.mk
        ((ps ++ kwps ++ [(k, Val.kw dk), (b, vb)]).map Prod.fst) va kwopt
        ((ps ++ kwps ++ [(k, Val.kw dk), (b, vb)]).map Prod.snd)) fresh =
      DecorResult.synErr ("non keyword only argument " ++ pyrepr b ++
        " follows keyword argument " ++ pyrepr k) := by
  have hvva : (va.isSome && !va.isSome) = false := by cases va <;> rfl
  have h1 : walk ps (⟨[], none, va, va.isSome⟩ : WalkSt) =
      Except.ok ⟨[], none, va, va.isSome⟩ :=
    walk_plainSeg2 ps _ hps hvva rfl
  obtain ⟨kd, fk, h2⟩ := walk_kwAny kwps ⟨[], none, va, va.isSome⟩ hkw
  have h3 : walkStep (⟨[] ++ kd, fk, va, va.isSome⟩ : WalkSt)
      (k, Val.kw dk) =
      Except.ok ⟨([] ++ kd) ++ [(k, dk)], some k, va, va.isSome⟩ := rfl
  have h4 : walk [(k, Val.kw dk), (b, vb)]
      (⟨[] ++ kd, fk, va, va.isSome⟩ : WalkSt) =
      Except.error ("non keyword only argument " ++ pyrepr b ++
        " follows keyword argument " ++ pyrepr k) := by
    show (walkStep ⟨[] ++ kd, fk, va, va.isSome⟩ (k, Val.kw dk)) >>= _ = _
    rw [h3, ok_bind]
    show (walkStep ⟨([] ++ kd) ++ [(k, dk)], some k, va, va.isSome⟩
      (b, vb)) >>= _ = _
    rw [walkStep_plain_err_kw hvb hvva (by simp [pyTruthy, hk])]
    rfl
  unfold with_kwonly
  rw [defaultPairs_self]
  rw [show initSt (ArgSpec.mk
      ((ps ++ kwps ++ [(k, Val.kw dk), (b, vb)]).map Prod.fst) va kwopt
      ((ps ++ kwps ++ [(k, Val.kw dk), (b, vb)]).map Prod.snd)) =
    ⟨[], none, va, va.isSome⟩ from rfl]
  rw [walk_append, walk_append]
  simp only [h1, ok_bind, h2, h4]

/-- Witness for C4 (amended): `f(a=kwonly(), b=2)` raises the error with
message `non keyword only argument 'b' follows keyword argument 'a'`. -/
theorem C4_witness :
    ("a" : String) ≠ "" ∧
    with_kwonly (ArgSpec.mk
        (([] ++ [] ++ [("a", Val.kw Val.noDefault), ("b", Val.int 2)]).map
          Prod.fst) none none
        (([] ++ [] ++ [("a", Val.kw Val.noDefault), ("b", Val.int 2)]).map
          Prod.snd)) "u" =
      DecorResult.synErr ("non keyword only argument " ++ pyrepr "b" ++
        " follows keyword argument " ++ pyrepr "a") :=
  ⟨by decide,
    C4_plain_after_kwonly_error [] [] "a" "b" Val.noDefault (Val.int 2)
      none none "u" (by intro p hp; cases hp) (by intro p hp; cases hp)
      (by decide) (by decide)⟩

/-- Counterexample to C5 as stated: in `f(k=kwonly(), b=2, m=vararg, c=3)`
the plain parameter `c` appears after the marker parameter `m`, yet the
raised message is the plain-after-keyword one about `b`, which does not
start with `non keyword only argument 'c' follows vararg 'm'`. -/
theorem C5_counterexample :
    with_kwonly (ArgSpec.mk ["k", "b", "m", "c"] none none
        [Val.kw Val.noDefault, Val.int 2, Val.varargS, Val.int 3]) "u" =
      DecorResult.synErr ("non keyword only argument " ++ pyrepr "b" ++
        " follows keyword argument " ++ pyrepr "k") ∧
    ¬ List.IsPrefix ("non keyword only argument " ++ pyrepr "c" ++
        " follows vararg " ++ pyrepr "m").data
      ("non keyword only argument " ++ pyrepr "b" ++
        " follows keyword argument " ++ pyrepr "k").data :=
  ⟨rfl, by decide⟩

/-- C5 (amended): decorating a function in which a plain parameter appears
after a vararg-marker parameter raises, at decoration time, a
syntax-error-class error; when the plain-after-marker is the first
ordering violation in the left-to-right walk (plain parameters before the
marker, only keyword-only parameters between the marker and the offending
parameter), the message starts with (here: equals)
`non keyword only argument '<plain>' follows vararg '<marker>'`; once the
marker role is established, every later declared parameter that is not
keyword-only makes decoration fail (a second marker fails as a duplicate).
-/
theorem C5_plain_after_marker_error (ps : List (String × Val)) (m : String)
    (kwmid : List (String × Val)) (b : String) (vb : Val)
    (rest : List (String × Val)) (kwopt : Option String) (fresh : String)
    (hps : ∀ p ∈ ps, isPlainVal p.2 = true)
    (hkw : ∀ p ∈ kwmid, isKwDecl p.2 = true)
    (hvb : isKwDecl vb = false) :
    with_kwonly (ArgSpec.mk
        ((ps ++ [(m, Val.varargS)] ++ kwmid ++ [(b, vb)] ++ rest).map
          Prod.fst) none kwopt
        ((ps ++ [(m, Val.varargS)] ++ kwmid ++ [(b, vb)] ++ rest).map
          Prod.snd)) fresh =
      DecorResult.synErr (if isVarargS vb = true
        then "duplicate " ++ pyrepr "vararg" ++ " arguments"
        else "non keyword only argument " ++ pyrepr b ++
          " follows vararg " ++ pyrepr m) := by
  have h1 : walk ps (⟨[], none, none, false⟩ : WalkSt) =
      Except.ok ⟨[], none, none, false⟩ :=
    walk_plainSeg ps _ hps rfl rfl
  have hm : walk [(m, Val.varargS)] (⟨[], none, none, false⟩ : WalkSt) =
      Except.ok ⟨[], none, some m, false⟩ := by
    show (walkStep ⟨[], none, none, false⟩ (m, Val.varargS)) >>= _ = _
    rw [walkStep_marker m rfl]
    rfl
  obtain ⟨kd, fk, h2⟩ := walk_kwAny kwmid ⟨[], none, some m, false⟩ hkw
  have h3 : walk [(b, vb)] (⟨[] ++ kd, fk, some m, false⟩ : WalkSt) =
      Except.error (if isVarargS vb = true
        then "duplicate " ++ pyrepr "vararg" ++ " arguments"
        else "non keyword only argument " ++ pyrepr b ++
          " follows vararg " ++ pyrepr m) := by
    show (walkStep ⟨[] ++ kd, fk, some m, false⟩ (b, vb)) >>= _ = _
    rw [walkStep_after_marker_err hvb rfl rfl]
    rfl
  unfold with_kwonly
  rw [defaultPairs_self]
  rw [show initSt (ArgSpec.mk
      ((ps ++ [(m, Val.varargS)] ++ kwmid ++ [(b, vb)] ++ rest).map
        Prod.fst) none kwopt
      ((ps ++ [(m, Val.varargS)] ++ kwmid ++ [(b, vb)] ++ rest).map
        Prod.snd)) = ⟨[], none, none, false⟩ from rfl]
  rw [walk_append, walk_append, walk_append, walk_append]
  simp only [h1, ok_bind, hm, h2, h3, walk_error]

/-- Witness for C5: `f(a=vararg, b=2)` raises the error with message
`non keyword only argument 'b' follows vararg 'a'`. -/
theorem C5_witness :
    isKwDecl (Val.int 2) = false ∧
    with_kwonly (ArgSpec.mk
        (([] ++ [("a", Val.varargS)] ++ [] ++ [("b", Val.int 2)] ++ []).map
          Prod.fst) none none
        (([] ++ [("a", Val.varargS)] ++ [] ++ [("b", Val.int 2)] ++ []).map
          Prod.snd)) "u" =
      DecorResult.synErr ("non keyword only argument " ++ pyrepr "b" ++
        " follows vararg " ++ pyrepr "a") :=
  ⟨by decide,
    C5_plain_after_marker_error [] "a" [] "b" (Val.int 2) [] none "u"
      (by intro p hp; cases hp) (by intro p hp; cases hp) (by decide)⟩

/-- Counterexample to C6 as stated: in `f(a=vararg, b=2, c=vararg)` two
parameters default to the vararg marker sentinel, yet the raised message
is the plain-after-vararg one about `b`, which does not start with
`duplicate 'vararg' arguments`. -/
theorem C6_counterexample :
    with_kwonly (ArgSpec.mk ["a", "b", "c"] none none
        [Val.varargS, Val.int 2, Val.varargS]) "u" =
      DecorResult.synErr ("non keyword only argument " ++ pyrepr "b" ++
        " follows vararg " ++ pyrepr "a") ∧
    ¬ List.IsPrefix ("duplicate " ++ pyrepr "vararg" ++ " arguments").data
      ("non keyword only argument " ++ pyrepr "b" ++
        " follows vararg " ++ pyrepr "a").data :=
  ⟨rfl, by decide⟩

/-- C6 (amended): declaring two vararg-marker parameters, or a marker
parameter on a function that already declares a native `*args` parameter,
raises at decoration time a syntax-error-class error which carries the
decorated function's file path, line number and literal source line text;
when the duplicate marker is the first ordering violation in the
left-to-right walk (plain parameters first, only keyword-only parameters
between it and the earlier capture), the message starts with (here:
equals) `duplicate 'vararg' arguments`. -/
theorem C6_duplicate_vararg_error (code : CodeMeta) (lines : List String)
    (line : String) (ps kwmid rest : List (String × Val))
    (m1 m2 va : String) (kwopt : Option String) (fresh : String)
    (hps : ∀ p ∈ ps, isPlainVal p.2 = true)
    (hkw : ∀ p ∈ kwmid, isKwDecl p.2 = true)
    (hline : lines.get? (code.co_firstlineno - 1) = some line) :
    with_kwonly_err code (some lines)
        (ArgSpec.mk ((ps ++ [(m1, Val.varargS)] ++ kwmid ++
            [(m2, Val.varargS)] ++ rest).map Prod.fst) none kwopt
          ((ps ++ [(m1, Val.varargS)] ++ kwmid ++
            [(m2, Val.varargS)] ++ rest).map Prod.snd)) fresh =
      some (some ⟨"duplicate " ++ pyrepr "vararg" ++ " arguments",
        code.co_filename, code.co_firstlineno, line.length, line⟩) ∧
    with_kwonly_err code (some lines)
        (ArgSpec.mk ((ps ++ kwmid ++ [(m1, Val.varargS)] ++ rest).map
            Prod.fst) (some va) kwopt
          ((ps ++ kwmid ++ [(m1, Val.varargS)] ++ rest).map Prod.snd))
        fresh =
      some (some ⟨"duplicate " ++ pyrepr "vararg" ++ " arguments",
        code.co_filename, code.co_firstlineno, line.length, line⟩) := by
  constructor
  · have h1 : walk ps (⟨[], none, none, false⟩ : WalkSt) =
        Except.ok ⟨[], none, none, false⟩ :=
      walk_plainSeg ps _ hps rfl rfl
    have hm : walk [(m1, Val.varargS)] (⟨[], none, none, false⟩ : WalkSt) =
        Except.ok ⟨[], none, some m1, false⟩ := by
      show (walkStep ⟨[], none, none, false⟩ (m1, Val.varargS)) >>= _ = _
      rw [walkStep_marker m1 rfl]
      rfl
    obtain ⟨kd, fk, h2⟩ := walk_kwAny kwmid ⟨[], none, some m1, false⟩ hkw
    have h3 : walk [(m2, Val.varargS)]
        (⟨[] ++ kd, fk, some m1, false⟩ : WalkSt) =
        Except.error ("duplicate " ++ pyrepr "vararg" ++ " arguments") := by
      show (walkStep ⟨[] ++ kd, fk, some m1, false⟩ (m2, Val.varargS)) >>=
        _ = _
      rfl
    unfold with_kwonly_err with_kwonly
    rw [defaultPairs_self]
    rw [show initSt (ArgSpec.mk ((ps ++ [(m1, Val.varargS)] ++ kwmid ++
        [(m2, Val.varargS)] ++ rest).map Prod.fst) none kwopt
        ((ps ++ [(m1, Val.varargS)] ++ kwmid ++
          [(m2, Val.varargS)] ++ rest).map Prod.snd)) =
      ⟨[], none, none, false⟩ from rfl]
    rw [walk_append, walk_append, walk_append, walk_append]
    simp only [h1, ok_bind, hm, h2, h3, walk_error]
    simp only [format_syntax_err, hline]
  · have h1 : walk ps (⟨[], none, some va, true⟩ : WalkSt) =
        Except.ok ⟨[], none, some va, true⟩ :=
      walk_plainSeg2 ps _ hps rfl rfl
    obtain ⟨kd, fk, h2⟩ := walk_kwAny kwmid ⟨[], none, some va, true⟩ hkw
    have h3 : walk [(m1, Val.varargS)]
        (⟨[] ++ kd, fk, some va, true⟩ : WalkSt) =
        Except.error ("duplicate " ++ pyrepr "vararg" ++ " arguments") := by
      show (walkStep ⟨[] ++ kd, fk, some va, true⟩ (m1, Val.varargS)) >>=
        _ = _
      rfl
    unfold with_kwonly_err with_kwonly
    rw [defaultPairs_self]
    rw [show initSt (ArgSpec.mk ((ps ++ kwmid ++
        [(m1, Val.varargS)] ++ rest).map Prod.fst) (some va) kwopt
        ((ps ++ kwmid ++ [(m1, Val.varargS)] ++ rest).map Prod.snd)) =
      ⟨[], none, some va, true⟩ from rfl]
    rw [walk_append, walk_append, walk_append]
    simp only [h1, ok_bind, h2, h3, walk_error]
    simp only [format_syntax_err, hline]

/-- Witness for C6: `f(a=vararg, b=vararg)` declared on line 3 of a file
whose third line is `@with_kwonly`. -/
theorem C6_witness :
    (["l1", "l2", "@with_kwonly"] : List String).get? (3 - 1) =
      some "@with_kwonly" ∧
    with_kwonly_err ⟨"kwo_test.py", 3, "f"⟩
        (some ["l1", "l2", "@with_kwonly"])
        (ArgSpec.mk (([] ++ [("a", Val.varargS)] ++ [] ++
            [("b", Val.varargS)] ++ []).map Prod.fst) none none
          (([] ++ [("a", Val.varargS)] ++ [] ++
            [("b", Val.varargS)] ++ []).map Prod.snd)) "u" =
      some (some ⟨"duplicate " ++ pyrepr "vararg" ++ " arguments",
        "kwo_test.py", 3, ("@with_kwonly" : String).length,
        "@with_kwonly"⟩) :=
  ⟨rfl,
    (C6_duplicate_vararg_error ⟨"kwo_test.py", 3, "f"⟩
      ["l1", "l2", "@with_kwonly"] "@with_kwonly" [] [] [] "a" "b" "zz"
      none "u" (by intro p hp; cases hp) (by intro p hp; cases hp) rfl).1⟩

/-- C10 (amended): supplying the `no_default` sentinel as a keyword value
makes the parameter count as missing (presence is decided by identity
comparison of the resolved value against the sentinel), triggering the
missing-required-keyword-only `TypeError` regardless of any recorded
default; for a parameter without a recorded default this is
indistinguishable from omitting the argument. -/
theorem C10_sentinel_counts_as_missing (d x : Val) :
    wrapperInvoke "f" (mkSpec ["a"] none [("b", d)] "kk") "u" [x]
        [("b", Val.noDefault)] =
      Except.error (PyErr.typeErr (missingMsg "f" ["b"])) ∧
    wrapperInvoke "f" (mkSpec ["a"] none [("b", Val.noDefault)] "kk") "u"
        [x] [("b", Val.noDefault)] =
      wrapperInvoke "f" (mkSpec ["a"] none [("b", Val.noDefault)] "kk") "u"
        [x] [] :=
  ⟨rfl, rfl⟩

end Kwo
